import Mathlib

/-!
Verification of the folder-tree store of the orca-folder-plugin repository.

The definitions below are a shallow embedding of the TypeScript sources:
  * `FolderTreePersistence` (src/unnamed/part_001): the items-schema
    persistence layer (loadData, saveData, createItem, deleteItem,
    renameItem, moveItem, reorderItems, getNextOrder, updateItemOrder);
  * `FolderTreeCore` (src/src/folder-tree-core.ts, first revision):
    snapshot queries (getItemById, getItemChildren, getRootItems,
    getClosedNotebooks), naturalSortChildren and the change-listener
    fan-out (notifyDataChange);
  * `FolderTreeRenderer.updateQueryBlockChildren` (src/unnamed/part_002):
    the query-block reconciliation, embedded over the query folder's
    direct-children list (the scope the function reads and writes).

Conventions of the embedding:
  * JS `null`/`undefined` string fields become `Option String`; a missing
    `children` array is `none`.  JS truthiness tests on strings
    (`if (parentId)`) are `truthyS` (false for `none` and for `some ""`).
  * `order` is `Int` (JS number; the code only ever stores integers in it;
    IEEE rounding for astronomically large values is out of scope).
  * Timestamps are `Nat`; `saveData` stamps every item's `modified` with
    the supplied `now`, exactly as the source does.
  * Each mutating persistence method is a pure function from the stored
    tree to a `MutResult`: the returned value, the stored tree afterwards
    (unchanged when the save fails, since the JS local copy is discarded),
    and whether `saveData` was invoked.  `saveOk : Bool` models whether
    the host key/value write succeeds.  The core reloads the snapshot from
    storage after every successful mutation, so `stored` is also the
    in-memory snapshot.
  * `deleteItem`'s inner recursion is depth-bounded by a fuel argument;
    `items.length + 1` suffices for every input on which the JS recursion
    terminates (on a cyclic `children` graph the JS recursion diverges).
-/

namespace Orca

inductive ItemType where
  | notebookT
  | folder
  | document
deriving DecidableEq, Repr

structure FolderItem where
  id : String
  name : String
  blockId : Option String := none
  parentId : Option String := none
  order : Int := 0
  itemType : ItemType := .document
  children : Option (List String) := none
  icon : Option String := none
  color : Option String := none
  modified : Nat := 0
deriving DecidableEq, Repr

/-- Settings of the persisted blob.  The persistence interface
(part_001) declares only `expandedItems` and `selectedItems`;
`closedNotebooks` is read by the core with an `|| []` fallback, so it is
embedded as an `Option` (absent = `none`). -/
structure TreeSettings where
  expandedItems : List String := []
  selectedItems : List String := []
  closedNotebooks : Option (List String) := none
deriving DecidableEq, Repr

structure FolderTreeData where
  items : List FolderItem := []
  settings : TreeSettings := {}
deriving DecidableEq, Repr

/-- JS string truthiness for `string | null | undefined` values. -/
def truthyS : Option String → Bool
  | none => false
  | some s => s ≠ ""

def isContainer (t : ItemType) : Bool :=
  t == .folder || t == .notebookT

/-- `data.items.find(i => i.id === id)`. -/
def findItem (data : FolderTreeData) (id : String) : Option FolderItem :=
  data.items.find? (fun i => i.id == id)

/-- Mutate (functionally) the first element satisfying `p`; JS code that
does `const x = arr.find(...); x.field = v` mutates exactly that
element. -/
def updateFirst (p : α → Bool) (f : α → α) : List α → List α
  | [] => []
  | x :: xs => if p x then f x :: xs else x :: updateFirst p f xs

/-- `splice(k, 0, a)` for `0 ≤ k ≤ length`. -/
def insertAt (k : Nat) (a : α) : List α → List α
  | [] => [a]
  | x :: xs => match k with
    | 0 => a :: x :: xs
    | k + 1 => x :: insertAt k a xs

/-- `saveData` stamps every item's `modified` with the current time. -/
def stampItem (now : Nat) (i : FolderItem) : FolderItem :=
  { i with modified := now }

def stampModified (now : Nat) (data : FolderTreeData) : FolderTreeData :=
  { data with items := data.items.map (stampItem now) }

/-- Result of one persistence mutation: the returned value, the stored
tree afterwards, and whether `saveData` ran. -/
structure MutResult (α : Type) where
  ret : α
  stored : FolderTreeData
  didSave : Bool
deriving DecidableEq, Repr

/-- `getNextOrder`: `Math.max(...siblings.map(i => i.order), -1) + 1`. -/
def getNextOrder (data : FolderTreeData) (parentId : Option String) : Int :=
  (((data.items.filter (fun i => i.parentId == parentId)).map (fun i => i.order)).foldr
    max (-1)) + 1

def defaultIcon : ItemType → String
  | .notebookT => "ti ti-notebook"
  | .folder => "ti ti-folder"
  | .document => "ti ti-cube"

/-- `FolderTreePersistence.createItem` (part_001 lines 173-218).
`newId` stands for the `generateId` result, `now` for `Date.now`. -/
def createItemP (data : FolderTreeData) (name : String) (ty : ItemType)
    (blockId parentId icon color : Option String) (newId : String)
    (now : Nat) (saveOk : Bool) : MutResult (Option FolderItem) :=
  let order := getNextOrder data parentId
  let item : FolderItem :=
    { id := newId
      name := name
      blockId := blockId
      parentId := if truthyS parentId then parentId else none
      order := order
      itemType := ty
      children := if ty == .folder || ty == .notebookT then some [] else none
      icon := if truthyS icon then icon else some (defaultIcon ty)
      color := color
      modified := now }
  let items1 := data.items ++ [item]
  let items2 :=
    if truthyS parentId then
      updateFirst (fun i => i.id == parentId.getD "")
        (fun p =>
          if isContainer p.itemType then
            { p with children := some (p.children.getD [] ++ [newId]) }
          else p) items1
    else items1
  if saveOk then
    ⟨some item, stampModified now { data with items := items2 }, true⟩
  else ⟨none, data, true⟩

/-- The recursive body of `FolderTreePersistence.deleteItem`
(part_001 lines 228-247): recurse into the snapshot of `children`,
splice the id out of its parent's `children`, drop the item. -/
def deleteRec : Nat → String → List FolderItem → List FolderItem
  | 0, _, items => items
  | fuel + 1, id, items =>
    match items.find? (fun i => i.id == id) with
    | none => items
    | some item =>
      let items1 :=
        match item.children with
        | some cs => cs.foldl (fun acc c => deleteRec fuel c acc) items
        | none => items
      let items2 :=
        if truthyS item.parentId then
          updateFirst (fun i => i.id == item.parentId.getD "")
            (fun p =>
              match p.children with
              | some cs => { p with children := some (cs.filter (fun c => c ≠ id)) }
              | none => p) items1
        else items1
      items2.filter (fun i => i.id ≠ id)

/-- `FolderTreePersistence.deleteItem` (part_001 lines 223-256): the
mutation is followed unconditionally by `saveData` — also when the id
names nothing. -/
def deleteItemP (data : FolderTreeData) (itemId : String) (saveOk : Bool)
    (now : Nat) : MutResult Bool :=
  let items := deleteRec (data.items.length + 1) itemId data.items
  if saveOk then ⟨true, stampModified now { data with items := items }, true⟩
  else ⟨false, data, true⟩

/-- `FolderTreePersistence.renameItem` (part_001 lines 261-275). -/
def renameItemP (data : FolderTreeData) (itemId newName : String)
    (saveOk : Bool) (now : Nat) : MutResult Bool :=
  match findItem data itemId with
  | none => ⟨false, data, false⟩
  | some _ =>
    let items := updateFirst (fun i => i.id == itemId)
      (fun i => { i with name := newName, modified := now }) data.items
    if saveOk then ⟨true, stampModified now { data with items := items }, true⟩
    else ⟨false, data, true⟩

/-- Index assignment loop `itemIds.forEach((itemId, index) => ...
item.order = index)` shared by `reorderItems` and `updateItemOrder`. -/
def assignOrdersAux (k : Nat) : List String → List FolderItem → List FolderItem
  | [], items => items
  | id :: rest, items =>
    assignOrdersAux (k + 1) rest
      (updateFirst (fun i => i.id == id) (fun i => { i with order := (k : Int) }) items)

def assignOrders (ids : List String) (items : List FolderItem) : List FolderItem :=
  assignOrdersAux 0 ids items

/-- Enumerate with explicit indices (used to model the JS pattern of
mutating the objects produced by `filter`). -/
def enumAux (k : Nat) : List FolderItem → List (Nat × FolderItem)
  | [] => []
  | x :: xs => (k, x) :: enumAux (k + 1) xs

def rootRepackAux (pos : List Nat) (k : Nat) : List FolderItem → List FolderItem
  | [] => []
  | x :: xs =>
    (if x.parentId == none then { x with order := ((pos.indexOf k : Nat) : Int) } else x)
      :: rootRepackAux pos (k + 1) xs

/-- Root branch of `updateItemOrder` (part_001 lines 379-384):
`items.filter(parentId === null).sort((a,b) => a.order - b.order)
.forEach((item, index) => item.order = index)`.  Each root item's order
becomes its rank in the stable sort of the roots by `order`. -/
def rootRepack (items : List FolderItem) : List FolderItem :=
  let roots := (enumAux 0 items).filter (fun p => p.2.parentId == none)
  let sorted := List.insertionSort (fun a b => a.2.order ≤ b.2.order) roots
  rootRepackAux (sorted.map (fun p => p.1)) 0 items

/-- `FolderTreePersistence.updateItemOrder` (part_001 lines 367-385). -/
def updateItemOrderData (data : FolderTreeData) (parentId : Option String) :
    FolderTreeData :=
  if truthyS parentId then
    match findItem data (parentId.getD "") with
    | some parent =>
      match parent.children with
      | some cs => { data with items := assignOrders cs data.items }
      | none => data
    | none => data
  else { data with items := rootRepack data.items }

/-- `FolderTreePersistence.moveItem` (part_001 lines 280-324).  Note:
no cycle check, no self check, no notebook check — the item's
`parentId` is overwritten unconditionally once the item is found. -/
def moveItemP (data : FolderTreeData) (itemId : String)
    (newParentId : Option String) (insertIndex : Option Int)
    (saveOk : Bool) (now : Nat) : MutResult Bool :=
  match findItem data itemId with
  | none => ⟨false, data, false⟩
  | some item =>
    let items1 :=
      if truthyS item.parentId then
        updateFirst (fun i => i.id == item.parentId.getD "")
          (fun p =>
            match p.children with
            | some cs => { p with children := some (cs.filter (fun c => c ≠ itemId)) }
            | none => p) data.items
      else data.items
    let items2 := updateFirst (fun i => i.id == itemId)
      (fun i => { i with parentId := newParentId }) items1
    let items3 :=
      if truthyS newParentId then
        updateFirst (fun i => i.id == newParentId.getD "")
          (fun p =>
            if isContainer p.itemType then
              let cs := p.children.getD []
              match insertIndex with
              | some k =>
                if 0 ≤ k ∧ k ≤ (cs.length : Int) then
                  { p with children := some (insertAt k.toNat itemId cs) }
                else { p with children := some (cs ++ [itemId]) }
              | none => { p with children := some (cs ++ [itemId]) }
            else p) items2
      else items2
    let data2 := updateItemOrderData { data with items := items3 } newParentId
    if saveOk then ⟨true, stampModified now data2, true⟩
    else ⟨false, data, true⟩

/-- `FolderTreePersistence.reorderItems` (part_001 lines 329-354).
Note: when `parentId` is non-null and found, its `children` is replaced
with no container-type check at all. -/
def reorderItemsP (data : FolderTreeData) (parentId : Option String)
    (itemIds : List String) (saveOk : Bool) (now : Nat) : MutResult Bool :=
  let items1 :=
    if truthyS parentId then
      updateFirst (fun i => i.id == parentId.getD "")
        (fun p => { p with children := some itemIds }) data.items
    else data.items
  let items2 := assignOrders itemIds items1
  if saveOk then ⟨true, stampModified now { data with items := items2 }, true⟩
  else ⟨false, data, true⟩

/-! ## Loading (part_001 lines 35-43, 57-87, 92-143) -/

/-- Legacy-schema notebook (`migrateFromOldFormat` input). -/
structure LegacyNotebook where
  id : String
  name : String
  order : Int := 0
  documents : Option (List String) := none
  created : Nat := 0
  modifiedAt : Nat := 0
deriving DecidableEq, Repr

/-- Legacy-schema document/folder entry; `type` may be absent
(`doc.type || "document"`). -/
structure LegacyDocument where
  id : String
  name : String
  blockId : Option String := none
  parentId : Option String := none
  order : Int := 0
  itemType : Option ItemType := none
  children : Option (List String) := none
  icon : Option String := none
  color : Option String := none
  modified : Nat := 0
deriving DecidableEq, Repr

structure LegacySettings where
  expandedNotebooks : List String := []
  expandedFolders : List String := []
  selectedItems : List String := []
deriving DecidableEq, Repr

structure LegacyData where
  notebooks : List LegacyNotebook := []
  documents : List LegacyDocument := []
  settings : Option LegacySettings := none
deriving DecidableEq, Repr

/-- Outcome of `orca.plugins.getData` + `JSON.parse`: the blob is
absent, unparseable (the `catch` branch fires), in the legacy shape
(`data.notebooks && data.documents` both present), or in the current
shape, whose `settings` member may itself be missing. -/
inductive StoredBlob where
  | absent
  | malformed
  | legacy (old : LegacyData)
  | current (items : List FolderItem) (settings : Option TreeSettings)
deriving DecidableEq, Repr

/-- `getDefaultData` (part_001 lines 35-43): the empty tree.  Its
settings hold only `expandedItems` and `selectedItems`; no
`closedNotebooks` field is produced. -/
def getDefaultData : FolderTreeData :=
  { items := []
    settings := { expandedItems := [], selectedItems := [], closedNotebooks := none } }

/-- `migrateFromOldFormat` (part_001 lines 92-143). -/
def migrateFromOldFormat (old : LegacyData) : FolderTreeData :=
  let nbItems : List FolderItem := old.notebooks.map (fun nb =>
    { id := nb.id
      name := nb.name
      blockId := none
      parentId := none
      order := nb.order
      itemType := .notebookT
      children := some (nb.documents.getD [])
      icon := some "ti ti-notebook"
      color := none
      modified := nb.modifiedAt })
  let docItems : List FolderItem := old.documents.map (fun d =>
    { id := d.id
      name := d.name
      blockId := d.blockId
      parentId := d.parentId
      order := d.order
      itemType := d.itemType.getD .document
      children := d.children
      icon := d.icon
      color := d.color
      modified := d.modified })
  { items := nbItems ++ docItems
    settings :=
      { expandedItems :=
          ((old.settings.map (fun s => s.expandedNotebooks)).getD []) ++
            ((old.settings.map (fun s => s.expandedFolders)).getD [])
        selectedItems := (old.settings.map (fun s => s.selectedItems)).getD []
        closedNotebooks := none } }

/-- `loadData` (part_001 lines 57-87): never throws across its
boundary — absent and unparseable blobs both yield the default. -/
def loadData : StoredBlob → FolderTreeData
  | .absent => getDefaultData
  | .malformed => getDefaultData
  | .legacy old => migrateFromOldFormat old
  | .current items settings =>
    { items := items
      settings := settings.getD
        { expandedItems := [], selectedItems := [], closedNotebooks := none } }

/-! ## Core snapshot queries (folder-tree-core.ts, first revision) -/

/-- `getClosedNotebooks` (core line 310): `settings.closedNotebooks || []`. -/
def getClosedNotebooks (data : FolderTreeData) : List String :=
  data.settings.closedNotebooks.getD []

/-- `getItemChildren` (core lines 500-505): recomputed from `parentId`
links, sorted ascending by `order` (stable). -/
def getItemChildren (data : FolderTreeData) (itemId : String) : List FolderItem :=
  List.insertionSort (fun a b => a.order ≤ b.order)
    (data.items.filter (fun i => i.parentId == some itemId))

/-- `getRootItems` (core lines 508-515): root-level items minus closed
notebooks, sorted by `order`. -/
def getRootItems (data : FolderTreeData) : List FolderItem :=
  List.insertionSort (fun a b => a.order ≤ b.order)
    (data.items.filter (fun i =>
      i.parentId == none && !((getClosedNotebooks data).contains i.id)))

/-! ## naturalSortChildren (core lines 361-415)

`naturalCompare` lower-cases both names, splits them into runs matching
`/(\d+|\D+)/g`, and walks the runs pairwise: when `Number(run)` is
non-NaN for both, the numbers are compared; otherwise the runs are
compared as strings; ties fall through, and exhausted prefixes are
broken by run-list length.  `Number` of a digit run is its decimal
value; `Number` of a digit-free run is `0` when the run is whitespace
only (JS `Number(" ") === 0`) and NaN otherwise (after `toLowerCase`,
`"infinity"` no longer parses).  ASCII case folding and ASCII
whitespace suffice for the repertoire the claims exercise. -/

def isJsWs (c : Char) : Bool :=
  c == ' ' || c == '\t' || c == '\n' || c == '\r' || c == '\x0b' || c == '\x0c'

/-- `Number(run)` for a run produced by `/(\d+|\D+)/g`:
`some v` models a non-NaN result. -/
def runValue (x : List Char) : Option Int :=
  if x ≠ [] && x.all (fun c => c.isDigit) then
    some ((x.foldl (fun n c => n * 10 + (c.toNat - '0'.toNat)) 0 : Nat) : Int)
  else if x.all isJsWs then some 0
  else none

/-- Alternating digit/non-digit runs of a character list. -/
def runsAux (flag : Bool) (cur : List Char) : List Char → List (List Char)
  | [] => [cur.reverse]
  | c :: cs =>
    if c.isDigit == flag then runsAux flag (c :: cur) cs
    else cur.reverse :: runsAux c.isDigit [c] cs

def splitRuns : List Char → List (List Char)
  | [] => []
  | c :: cs => runsAux c.isDigit [c] cs

/-- JS `<` on strings: lexicographic by UTF-16 code unit. -/
def strLt : List Char → List Char → Bool
  | [], [] => false
  | [], _ :: _ => true
  | _ :: _, [] => false
  | c :: cs, d :: ds => if c < d then true else if d < c then false else strLt cs ds

def cmpRun (x y : List Char) : Int :=
  match runValue x, runValue y with
  | some m, some n => if m ≠ n then m - n else 0
  | _, _ => if x ≠ y then (if strLt x y then -1 else 1) else 0

def cmpRuns : List (List Char) → List (List Char) → Int
  | [], [] => 0
  | [], bs => -((bs.length : Int))
  | as, [] => (as.length : Int)
  | x :: as, y :: bs =>
    let c := cmpRun x y
    if c ≠ 0 then c else cmpRuns as bs

/-- The comparator of `naturalSortChildren` (core lines 375-405). -/
def naturalCompare (a b : String) : Int :=
  cmpRuns (splitRuns (a.data.map Char.toLower)) (splitRuns (b.data.map Char.toLower))

/-- `[...].sort(naturalCompare)`; JS sort with a consistent comparator
is a stable ascending sort. -/
def sortNatural (l : List String) : List String :=
  List.insertionSort (fun a b => naturalCompare a b ≤ 0) l

/-- `FolderTreeCore.naturalSortChildren` (core lines 361-415): read the
children from the snapshot, sort by name, delegate to `reorderItems`. -/
def naturalSortChildrenOp (data : FolderTreeData) (parentId : Option String)
    (saveOk : Bool) (now : Nat) : MutResult Bool :=
  let children :=
    match parentId with
    | none => getRootItems data
    | some p => getItemChildren data p
  if children.isEmpty then ⟨true, data, false⟩
  else
    let sorted := List.insertionSort
      (fun a b => naturalCompare a.name b.name ≤ 0) children
    reorderItemsP data parentId (sorted.map (fun i => i.id)) saveOk now

/-! ## Change-listener fan-out (core lines 44-84)

A listener is modelled as a function that either returns or throws
(`Except`).  `notifyDataChange` runs every listener inside its own
`try/catch` (core lines 63-69); the catch logs the error, so the loop's
outcome for each listener is recorded and no exception escapes. -/

def ListenerFn := FolderTreeData → Except String Unit

/-- Error captured (and logged) for one listener invocation. -/
def caughtError : Except String Unit → Option String
  | .ok _ => none
  | .error e => some e

/-- `notifyDataChange` (core lines 61-71): iterate all listeners; a
throwing listener is caught inside the loop and iteration continues. -/
def notifyDataChange (listeners : List ListenerFn) (data : FolderTreeData) :
    List (Option String) :=
  match listeners with
  | [] => []
  | f :: rest => caughtError (f data) :: notifyDataChange rest data

/-- `FolderTreeCore.saveData` (core lines 76-84): persist, then notify
on success; the returned flag is the save result. -/
def coreSaveData (persistOk : Bool) (listeners : List ListenerFn)
    (data : FolderTreeData) : Bool × List (Option String) :=
  if persistOk then (true, notifyDataChange listeners data) else (false, [])

/-! ## Query-block reconciliation (part_002 lines 1742-1949)

`updateQueryBlockChildren` is embedded over the query folder's direct
children — the only tree region the function reads and writes (children
are fetched with `getItemChildren`, removed with `deleteItem`, added
with `createDocument` under the folder, and reordered with
`reorderItems`).  A child is `⟨id, blockId, order⟩`; `results` is the
ordered list of block ids the host query returned, and `fresh` supplies
the ids `generateId` would produce for newly created children. -/

structure QChild where
  id : String
  blockId : Option String := none
  order : Int := 0
deriving DecidableEq, Repr

def qNextOrder (cs : List QChild) : Int :=
  ((cs.map (fun c => c.order)).foldr max (-1)) + 1

/-- The creation loop (part_002 lines 1861-1925): for each result id,
skip when the *snapshot* of the children taken before any deletion
contains a child with that `blockId`; otherwise create a new document
child whose order is `getNextOrder` of the current children. -/
def createLoop (snapshot : List QChild) :
    List String → List QChild → List String → List String →
    List QChild × List String
  | [], cur, created, _ => (cur, created)
  | b :: rest, cur, created, fresh =>
    match snapshot.find? (fun c => c.blockId == some b) with
    | some _ => createLoop snapshot rest cur created fresh
    | none =>
      match fresh with
      | [] => createLoop snapshot rest cur created []
      | fid :: fs =>
        createLoop snapshot rest
          (cur ++ [{ id := fid, blockId := some b, order := qNextOrder cur }])
          (created ++ [fid]) fs

/-- The `(a, b) => a.order - b.order` comparator as a relation. -/
def qLe (a b : QChild) : Prop := a.order ≤ b.order

instance : DecidableRel qLe := fun a b => inferInstanceAs (Decidable (a.order ≤ b.order))

instance : IsTotal QChild qLe := ⟨fun a b => le_total a.order b.order⟩

instance : IsTrans QChild qLe := ⟨fun _ _ _ h1 h2 => le_trans h1 h2⟩

/-- Stable sort by `order` — `getItemChildren`'s view of the folder. -/
def sortQ (cs : List QChild) : List QChild :=
  List.insertionSort qLe cs

/-- `reorderItems`' order loop restricted to the children list. -/
def applyReorderQ (k : Nat) (ids : List String) (cs : List QChild) : List QChild :=
  match ids with
  | [] => cs
  | id :: rest =>
    applyReorderQ (k + 1) rest
      (updateFirst (fun c => c.id == id) (fun c => { c with order := (k : Int) }) cs)

structure SyncResult where
  deleted : List String
  created : List String
  children : List QChild
deriving DecidableEq, Repr

/-- A child is deleted when its `blockId` is truthy and absent from the
result set (part_002 lines 1852-1857). -/
def isStale (results : List String) (c : QChild) : Bool :=
  truthyS c.blockId && !(results.contains (c.blockId.getD ""))

/-- `FolderTreeRenderer.updateQueryBlockChildren` (part_002 lines
1742-1949), child-list scope: on an empty result set delete every child
carrying a `blockId`; otherwise delete stale children, create children
for unmatched result ids, and reorder the folder's children to the
result order. -/
def updateQueryBlockChildren (existing : List QChild) (results : List String)
    (fresh : List String) : SyncResult :=
  if results.isEmpty then
    { deleted := (existing.filter (fun c => truthyS c.blockId)).map (fun c => c.id)
      created := []
      children := existing.filter (fun c => !(truthyS c.blockId)) }
  else
    let deleted := (existing.filter (isStale results)).map (fun c => c.id)
    let kept := existing.filter (fun c => !(isStale results c))
    let r := createLoop existing results kept [] fresh
    let sortedCh := sortQ r.1
    let orderedIds := results.filterMap
      (fun b => (sortedCh.find? (fun c => c.blockId == some b)).map (fun c => c.id))
    let final := if orderedIds.isEmpty then r.1 else applyReorderQ 0 orderedIds r.1
    { deleted := deleted, created := r.2, children := final }

/-! ## Generic list lemmas -/

theorem updateFirst_map {α β : Type} (p : α → Bool) (f : α → α) (g : α → β)
    (hg : ∀ x, g (f x) = g x) : ∀ l : List α, (updateFirst p f l).map g = l.map g
  | [] => rfl
  | x :: xs => by
    by_cases hx : p x = true
    · simp [updateFirst, hx, hg]
    · simp only [updateFirst, hx]
      simp [updateFirst_map p f g hg xs]

theorem find?_updateFirst_proj {α β : Type} (p q : α → Bool) (f : α → α) (g : α → β)
    (hq : ∀ x, q (f x) = q x) (hg : ∀ x, g (f x) = g x) :
    ∀ l : List α, ((updateFirst p f l).find? q).map g = (l.find? q).map g
  | [] => rfl
  | x :: xs => by
    by_cases hx : p x = true
    · simp only [updateFirst, hx, if_pos]
      by_cases hqx : q x = true
      · simp [List.find?_cons, hq, hqx, hg]
      · simp [List.find?_cons, hq, hqx]
    · simp only [updateFirst, hx]
      by_cases hqx : q x = true
      · simp [List.find?_cons, hqx]
      · simp [List.find?_cons, hqx,
          find?_updateFirst_proj p q f g hq hg xs]

theorem find?_updateFirst_self {α : Type} (p : α → Bool) (f : α → α)
    (hp : ∀ x, p (f x) = p x) :
    ∀ l : List α, (updateFirst p f l).find? p = (l.find? p).map f
  | [] => rfl
  | x :: xs => by
    by_cases hx : p x = true
    · simp [updateFirst, hx, List.find?_cons, hp]
    · simp [updateFirst, hx, List.find?_cons,
        find?_updateFirst_self p f hp xs]

theorem find?_map_proj {α β : Type} (st : α → α) (q : α → Bool) (g : α → β)
    (hq : ∀ x, q (st x) = q x) (hg : ∀ x, g (st x) = g x) :
    ∀ l : List α, ((l.map st).find? q).map g = (l.find? q).map g
  | [] => rfl
  | x :: xs => by
    by_cases hqx : q x = true
    · simp [List.find?_cons, hq, hqx, hg]
    · have ih := find?_map_proj st q g hq hg xs
      simp only [List.map_cons]
      rw [List.find?_cons_of_neg _ (by rw [hq]; exact hqx),
        List.find?_cons_of_neg _ hqx]
      exact ih

theorem map_proj_map {α β : Type} (st : α → α) (g : α → β)
    (hg : ∀ x, g (st x) = g x) : ∀ l : List α, (l.map st).map g = l.map g
  | [] => rfl
  | x :: xs => by simp [hg, map_proj_map st g hg xs]

theorem find?_append_left {α : Type} (p : α → Bool) (x : α) :
    ∀ l l' : List α, l.find? p = some x → (l ++ l').find? p = some x
  | [], _, h => by simp [List.find?] at h
  | a :: as, l', h => by
    by_cases ha : p a = true
    · simp_all [List.find?_cons]
    · simp_all [List.find?_cons, find?_append_left p x as l']

theorem le_foldr_max : ∀ (l : List Int) (a x : Int), x ∈ l → x ≤ l.foldr max a
  | [], _, _, h => absurd h (List.not_mem_nil _)
  | y :: ys, a, x, h => by
    rcases List.mem_cons.mp h with h | h
    · subst h; exact le_max_left _ _
    · exact le_trans (le_foldr_max ys a x h) (le_max_right _ _)

theorem init_le_foldr_max : ∀ (l : List Int) (a : Int), a ≤ l.foldr max a
  | [], _ => le_refl _
  | y :: ys, a => le_trans (init_le_foldr_max ys a) (le_max_right _ _)

theorem foldr_max_mem : ∀ (l : List Int) (a : Int),
    l.foldr max a = a ∨ l.foldr max a ∈ l
  | [], _ => Or.inl rfl
  | y :: ys, a => by
    rcases max_choice y (ys.foldr max a) with h | h
    · exact Or.inr (by simp [List.foldr_cons, h])
    · rcases foldr_max_mem ys a with h2 | h2
      · exact Or.inl (by rw [List.foldr_cons, h, h2])
      · exact Or.inr (by rw [List.foldr_cons, h]; exact List.mem_cons_of_mem _ h2)

theorem filterMap_eq_map_of_some {β γ : Type} (f : β → Option γ) (g : β → γ) :
    ∀ l : List β, (∀ b ∈ l, f b = some (g b)) → l.filterMap f = l.map g
  | [], _ => rfl
  | b :: bs, h => by
    have hb := h b (List.mem_cons_self b bs)
    simp [List.filterMap_cons, hb,
      filterMap_eq_map_of_some f g bs (fun x hx => h x (List.mem_cons_of_mem b hx))]

theorem find?_eq_some_of_unique {γ : Type} (p : γ → Bool) (x : γ) :
    ∀ l : List γ, x ∈ l → p x = true → (∀ y ∈ l, p y = true → y = x) →
      l.find? p = some x
  | [], h, _, _ => absurd h (List.not_mem_nil _)
  | a :: as, h, hpx, huniq => by
    by_cases ha : p a = true
    · have hax : a = x := huniq a (List.mem_cons_self a as) ha
      cases hax
      simp [List.find?_cons, ha]
    · have hxas : x ∈ as := by
        rcases List.mem_cons.mp h with h | h
        · exact absurd (h ▸ hpx) ha
        · exact h
      simp [List.find?_cons, ha,
        find?_eq_some_of_unique p x as hxas hpx
          (fun y hy => huniq y (List.mem_cons_of_mem a hy))]

/-! ## Projection lemmas: which operations preserve which item fields -/

theorem find?_cons_proj {α β : Type} (q : α → Bool) (g : α → β) (x x' : α)
    (l l' : List α) (hq : q x' = q x) (hg : g x' = g x)
    (ih : ((l'.find? q).map g) = ((l.find? q).map g)) :
    (((x' :: l').find? q).map g) = (((x :: l).find? q).map g) := by
  by_cases hqx : q x = true
  · rw [List.find?_cons_of_pos _ (by rw [hq]; exact hqx), List.find?_cons_of_pos _ hqx]
    simp [hg]
  · rw [List.find?_cons_of_neg _ (by rw [hq]; exact hqx), List.find?_cons_of_neg _ hqx]
    exact ih

theorem find?_assignOrdersAux_proj {β : Type} (g : FolderItem → β)
    (hg : ∀ (x : FolderItem) (v : Int), g { x with order := v } = g x) (a : String) :
    ∀ (ids : List String) (k : Nat) (items : List FolderItem),
      ((assignOrdersAux k ids items).find? (fun i => i.id == a)).map g
        = (items.find? (fun i => i.id == a)).map g
  | [], _, _ => rfl
  | id :: rest, k, items => by
    simp only [assignOrdersAux]
    rw [find?_assignOrdersAux_proj g hg a rest (k + 1) _]
    exact find?_updateFirst_proj (fun i => i.id == id) (fun i => i.id == a)
      (fun i => { i with order := (k : Int) }) g (fun x => rfl)
      (fun x => hg x (k : Int)) items

theorem find?_rootRepackAux_proj {β : Type} (g : FolderItem → β)
    (hg : ∀ (x : FolderItem) (v : Int), g { x with order := v } = g x) (a : String)
    (pos : List Nat) :
    ∀ (l : List FolderItem) (k : Nat),
      ((rootRepackAux pos k l).find? (fun i => i.id == a)).map g
        = (l.find? (fun i => i.id == a)).map g
  | [], _ => rfl
  | x :: xs, k => by
    simp only [rootRepackAux]
    by_cases hc : (x.parentId == none) = true
    · simp only [hc, if_true]
      exact find?_cons_proj _ g x _ xs _ rfl (hg x _)
        (find?_rootRepackAux_proj g hg a pos xs (k + 1))
    · simp only [if_neg hc]
      exact find?_cons_proj _ g x x xs _ rfl rfl
        (find?_rootRepackAux_proj g hg a pos xs (k + 1))

theorem findItem_updateItemOrder_proj {β : Type} (g : FolderItem → β)
    (hg : ∀ (x : FolderItem) (v : Int), g { x with order := v } = g x)
    (data : FolderTreeData) (p : Option String) (a : String) :
    ((findItem (updateItemOrderData data p) a).map g) = ((findItem data a).map g) := by
  by_cases ht : truthyS p = true
  · simp only [updateItemOrderData, findItem, ht, if_true]
    cases hf : data.items.find? (fun i => i.id == p.getD "") with
    | none => rfl
    | some parent =>
      cases hc : parent.children with
      | none => simp [hf, hc]
      | some cs =>
        simp only [hf, hc]
        exact find?_assignOrdersAux_proj g hg a cs 0 data.items
  · simp only [updateItemOrderData, findItem, ht, if_false, Bool.false_eq_true,
      rootRepack]
    exact find?_rootRepackAux_proj g hg a _ data.items 0

theorem findItem_stamp_proj {β : Type} (g : FolderItem → β)
    (hg : ∀ (x : FolderItem) (now : Nat), g (stampItem now x) = g x)
    (data : FolderTreeData) (now : Nat) (a : String) :
    ((findItem (stampModified now data) a).map g) = ((findItem data a).map g) := by
  simp only [findItem, stampModified]
  exact find?_map_proj (stampItem now) (fun i => i.id == a) g (fun x => rfl)
    (fun x => hg x now) data.items

/-- Core of claims about `moveItem`: once the item is found, the move is
performed unconditionally — the call returns the save result and the
stored item's `parentId` is the requested new parent. -/
theorem moveItemP_found (data : FolderTreeData) (itemId : String)
    (newParentId : Option String) (insertIndex : Option Int) (now : Nat)
    (item : FolderItem) (hfind : findItem data itemId = some item) :
    (moveItemP data itemId newParentId insertIndex true now).ret = true ∧
      ((findItem (moveItemP data itemId newParentId insertIndex true now).stored
        itemId).map (fun i => i.parentId)) = some newParentId := by
  have hpid : ∀ (x : FolderItem) (v : Int),
      ({ x with order := v } : FolderItem).parentId = x.parentId := fun _ _ => rfl
  have hstamp : ∀ (x : FolderItem) (n : Nat),
      (stampItem n x).parentId = x.parentId := fun _ _ => rfl
  unfold moveItemP
  rw [hfind]
  dsimp only
  rw [if_pos rfl]
  refine ⟨rfl, ?_⟩
  rw [findItem_stamp_proj (fun i => i.parentId) hstamp]
  rw [findItem_updateItemOrder_proj (fun i => i.parentId) hpid]
  simp only [findItem]
  have step3 : ∀ items2 : List FolderItem,
      (((if truthyS newParentId then
          updateFirst (fun i => i.id == newParentId.getD "")
            (fun p =>
              if isContainer p.itemType then
                let cs := p.children.getD []
                match insertIndex with
                | some k =>
                  if 0 ≤ k ∧ k ≤ (cs.length : Int) then
                    { p with children := some (insertAt k.toNat itemId cs) }
                  else { p with children := some (cs ++ [itemId]) }
                | none => { p with children := some (cs ++ [itemId]) }
              else p) items2
        else items2).find? (fun i => i.id == itemId)).map (fun i => i.parentId))
        = ((items2.find? (fun i => i.id == itemId)).map (fun i => i.parentId)) := by
    intro items2
    by_cases ht : truthyS newParentId = true
    · simp only [ht, if_true]
      refine find?_updateFirst_proj _ _ _ _ (fun x => ?_) (fun x => ?_) items2
      · by_cases hcont : isContainer x.itemType = true
        · simp only [hcont, if_true]
          cases insertIndex with
          | none => rfl
          | some k =>
            by_cases hk : 0 ≤ k ∧ k ≤ ((x.children.getD []).length : Int)
            · simp [hk]
            · simp [hk]
        · rw [if_neg hcont]
      · by_cases hcont : isContainer x.itemType = true
        · simp only [hcont, if_true]
          cases insertIndex with
          | none => rfl
          | some k =>
            by_cases hk : 0 ≤ k ∧ k ≤ ((x.children.getD []).length : Int)
            · simp [hk]
            · simp [hk]
        · rw [if_neg hcont]
    · simp [ht]
  rw [step3]
  have step2 := find?_updateFirst_self (fun i : FolderItem => i.id == itemId)
    (fun i : FolderItem => { i with parentId := newParentId }) (fun x => rfl)
  rw [step2]
  have step1 : (((if truthyS item.parentId then
      updateFirst (fun i => i.id == item.parentId.getD "")
        (fun p =>
          match p.children with
          | some cs => { p with children := some (cs.filter (fun c => c ≠ itemId)) }
          | none => p) data.items
    else data.items).find? (fun i => i.id == itemId)).map (fun i => i.parentId))
      = ((data.items.find? (fun i => i.id == itemId)).map (fun i => i.parentId)) := by
    by_cases ht : truthyS item.parentId = true
    · simp only [ht, if_true]
      refine find?_updateFirst_proj _ _ _ _ (fun x => ?_) (fun x => ?_) data.items
      · cases hc : x.children <;> simp [hc]
      · cases hc : x.children <;> simp [hc]
    · simp [ht]
  have hfind' : data.items.find? (fun i => i.id == itemId) = some item := hfind
  cases hstep1 : (if truthyS item.parentId then
      updateFirst (fun i => i.id == item.parentId.getD "")
        (fun p =>
          match p.children with
          | some cs => { p with children := some (cs.filter (fun c => c ≠ itemId)) }
          | none => p) data.items
    else data.items).find? (fun i => i.id == itemId) with
  | none => rw [hstep1] at step1; rw [hfind'] at step1; simp at step1
  | some i1 =>
    rfl

/-! ## Demonstration trees (concrete inputs for witnesses/counterexamples) -/

/-- Folder A ⊃ folder B ⊃ document C, all children lists consistent. -/
def demoCycleTree : FolderTreeData :=
  { items :=
      [ { id := "A", name := "A", parentId := none, order := 0,
          itemType := .folder, children := some ["B"] },
        { id := "B", name := "B", parentId := some "A", order := 0,
          itemType := .folder, children := some ["C"] },
        { id := "C", name := "C", parentId := some "B", order := 0,
          itemType := .document } ] }

def demoCycleItemA : FolderItem :=
  { id := "A", name := "A", parentId := none, order := 0,
    itemType := .folder, children := some ["B"] }

/-- A notebook N and a folder F, both at root. -/
def demoNotebookTree : FolderTreeData :=
  { items :=
      [ { id := "N", name := "N", parentId := none, order := 0,
          itemType := .notebookT, children := some [] },
        { id := "F", name := "F", parentId := none, order := 1,
          itemType := .folder, children := some [] } ] }

def demoNotebookItemN : FolderItem :=
  { id := "N", name := "N", parentId := none, order := 0,
    itemType := .notebookT, children := some [] }

/-- A single root document X (modified 0). -/
def demoSingleTree : FolderTreeData :=
  { items :=
      [ { id := "X", name := "X", parentId := none, order := 0,
          itemType := .document, modified := 0 } ] }

/-- A plain document D (not a container) plus a root document x. -/
def demoNonContainerTree : FolderTreeData :=
  { items :=
      [ { id := "D", name := "D", parentId := none, order := 0,
          itemType := .document },
        { id := "x", name := "x", parentId := none, order := 1,
          itemType := .document } ] }

def demoNonContainerD : FolderItem :=
  { id := "D", name := "D", parentId := none, order := 0,
    itemType := .document }

/-! ## C1 — moveItem and the cycle guard -/

/-- C1 (counterexample): with folder A containing folder B containing
document C, `moveItem(A, C.id)` returns `true` and rewrites A's
`parentId` to C — the claimed rejection and no-op do not happen. -/
theorem moveItem_cycle_counterexample :
    (moveItemP demoCycleTree "A" (some "C") none true 7).ret = true ∧
      ((findItem (moveItemP demoCycleTree "A" (some "C") none true 7).stored
        "A").map (fun i => i.parentId)) = some (some "C") ∧
      (moveItemP demoCycleTree "A" (some "C") none true 7).stored ≠ demoCycleTree := by
  decide

/-- C1 (amended): neither `FolderTreeCore.moveItem` nor
`FolderTreePersistence.moveItem` performs any self- or descendant-check:
for every tree and every existing item X, `moveItem(X, P)` — including
P = X or P a descendant of X — applies the move, sets X's `parentId` to
P in the stored tree, and returns the save result (`true` when the save
succeeds); the cycle rejection exists only in the renderer's drag
handler (`isAncestor`), upstream of this API. -/
theorem moveItem_no_cycle_guard (data : FolderTreeData) (itemId : String)
    (newParentId : Option String) (insertIndex : Option Int) (now : Nat)
    (item : FolderItem) (hfind : findItem data itemId = some item) :
    (moveItemP data itemId newParentId insertIndex true now).ret = true ∧
      ((findItem (moveItemP data itemId newParentId insertIndex true now).stored
        itemId).map (fun i => i.parentId)) = some newParentId :=
  moveItemP_found data itemId newParentId insertIndex now item hfind

theorem moveItem_no_cycle_guard_witness :
    findItem demoCycleTree "A" = some demoCycleItemA ∧
      ((moveItemP demoCycleTree "A" (some "A") none true 7).ret = true ∧
        ((findItem (moveItemP demoCycleTree "A" (some "A") none true 7).stored
          "A").map (fun i => i.parentId)) = some (some "A")) :=
  ⟨by decide,
    moveItem_no_cycle_guard demoCycleTree "A" (some "A") none 7 demoCycleItemA
      (by decide)⟩

/-! ## C5 — mutations on a missing id -/

/-- C5 (counterexample): deleting an id that names nothing still saves:
it returns `true`, `saveData` runs, and every item's `modified` stamp is
bumped (here from 0 to 5) — not the claimed `false`/no-save no-op. -/
theorem deleteItem_missing_id_counterexample :
    (deleteItemP demoSingleTree "ghost" true 5).ret = true ∧
      (deleteItemP demoSingleTree "ghost" true 5).didSave = true ∧
      ((deleteItemP demoSingleTree "ghost" true 5).stored.items.map
        (fun i => i.modified)) = [5] := by
  decide

/-- C5 (amended): on an id that names no item, `renameItem` and
`moveItem` return `false` without saving and leave the stored tree
untouched, but `deleteItem` still performs a save: it returns the save
result (`true` on success) and the save bumps every item's `modified`
timestamp, leaving the structure otherwise unchanged. -/
theorem missing_id_behavior (data : FolderTreeData) (id newName : String)
    (np : Option String) (idx : Option Int) (saveOk : Bool) (now : Nat)
    (hmiss : findItem data id = none) :
    renameItemP data id newName saveOk now = ⟨false, data, false⟩ ∧
      moveItemP data id np idx saveOk now = ⟨false, data, false⟩ ∧
      (deleteItemP data id saveOk now).ret = saveOk ∧
      (deleteItemP data id saveOk now).didSave = true ∧
      (deleteItemP data id saveOk now).stored
        = (if saveOk then stampModified now data else data) := by
  have hmiss' : data.items.find? (fun i => i.id == id) = none := hmiss
  have hdel : deleteRec (data.items.length + 1) id data.items = data.items := by
    simp [deleteRec, hmiss']
  refine ⟨?_, ?_, ?_, ?_, ?_⟩
  · unfold renameItemP
    rw [hmiss]
  · unfold moveItemP
    rw [hmiss]
  · unfold deleteItemP
    cases saveOk <;> simp
  · unfold deleteItemP
    cases saveOk <;> simp
  · unfold deleteItemP
    rw [hdel]
    cases saveOk <;> simp

theorem missing_id_behavior_witness :
    findItem demoSingleTree "ghost" = none ∧
      (renameItemP demoSingleTree "ghost" "nn" true 5 = ⟨false, demoSingleTree, false⟩ ∧
        moveItemP demoSingleTree "ghost" (some "X") none true 5
          = ⟨false, demoSingleTree, false⟩ ∧
        (deleteItemP demoSingleTree "ghost" true 5).ret = true ∧
        (deleteItemP demoSingleTree "ghost" true 5).didSave = true ∧
        (deleteItemP demoSingleTree "ghost" true 5).stored
          = (if true then stampModified 5 demoSingleTree else demoSingleTree)) :=
  ⟨by decide,
    missing_id_behavior demoSingleTree "ghost" "nn" (some "X") none true 5 (by decide)⟩

/-! ## C8 — loadData and the default tree -/

/-- The empty default tree as §4.1 of the spec words it: settings with
`closedNotebooks: []` present.  (Spec-side definition, for comparison
with the code's `getDefaultData`.) -/
def specDefaultTreeData : FolderTreeData :=
  { items := []
    settings :=
      { expandedItems := [], selectedItems := [], closedNotebooks := some [] } }

/-- C8 (counterexample): the default tree returned for an absent blob
has *no* `closedNotebooks` list at all — the field is absent
(`undefined`), not the empty list the claim describes. -/
theorem default_settings_counterexample :
    (loadData .absent).settings.closedNotebooks = none ∧
      specDefaultTreeData.settings.closedNotebooks = some [] ∧
      loadData .absent ≠ specDefaultTreeData := by
  decide

/-- C8 (amended): `loadData` never throws across its boundary: an
absent blob and an unparseable blob both yield the same empty default
`{items: [], settings: {expandedItems: [], selectedItems: []}}`; that
default carries no `closedNotebooks` field (the core's
`getClosedNotebooks` falls back to `[]` when reading it). -/
theorem loadData_never_throws_default_shape :
    loadData .absent = getDefaultData ∧
      loadData .malformed = getDefaultData ∧
      getDefaultData.items = [] ∧
      getDefaultData.settings.expandedItems = [] ∧
      getDefaultData.settings.selectedItems = [] ∧
      getDefaultData.settings.closedNotebooks = none ∧
      getClosedNotebooks getDefaultData = [] := by
  decide

/-! ## C3 — notebook root-confinement -/

/-- C3 (counterexample): moving notebook N under folder F succeeds and
leaves a notebook with a non-null `parentId` in the stored tree, so the
root-confinement invariant is not maintained by the mutation API. -/
theorem notebook_nesting_counterexample :
    (moveItemP demoNotebookTree "N" (some "F") none true 7).ret = true ∧
      ((findItem (moveItemP demoNotebookTree "N" (some "F") none true 7).stored
        "N").map (fun i => (i.itemType, i.parentId)))
        = some (ItemType.notebookT, some "F") := by
  decide

/-- C3 (amended): the core mutation API does not enforce notebook
root-confinement.  `createItem` with type `notebook` and a non-null
parent returns a notebook whose `parentId` is that parent, and
`moveItem` on a notebook with a non-null new parent returns `true` and
stores the notebook under that parent; the rejection exists only in the
renderer's drag handlers. -/
theorem notebook_confinement_not_enforced :
    (∀ (data : FolderTreeData) (name : String) (blockId icon color : Option String)
      (p newId : String) (now : Nat), p ≠ "" →
      ∃ it, (createItemP data name .notebookT blockId (some p) icon color newId
          now true).ret = some it ∧
        it.itemType = .notebookT ∧ it.parentId = some p) ∧
    (∀ (data : FolderTreeData) (nId : String) (np : Option String)
      (idx : Option Int) (now : Nat) (nb : FolderItem),
      findItem data nId = some nb → nb.itemType = .notebookT →
      (moveItemP data nId np idx true now).ret = true ∧
        ((findItem (moveItemP data nId np idx true now).stored nId).map
          (fun i => i.parentId)) = some np) := by
  constructor
  · intro data name blockId icon color p newId now hp
    have htr : truthyS (some p) = true := by simp [truthyS, hp]
    unfold createItemP
    dsimp only
    rw [if_pos rfl]
    refine ⟨_, rfl, rfl, ?_⟩
    rw [if_pos htr]
  · intro data nId np idx now nb hfind _
    exact moveItemP_found data nId np idx now nb hfind

theorem notebook_confinement_not_enforced_witness :
    (∃ it, (createItemP demoNotebookTree "NB2" .notebookT none (some "F") none none
        "nb2" 4 true).ret = some it ∧
      it.itemType = .notebookT ∧ it.parentId = some "F") ∧
    ((moveItemP demoNotebookTree "N" (some "F") none true 4).ret = true ∧
      ((findItem (moveItemP demoNotebookTree "N" (some "F") none true 4).stored
        "N").map (fun i => i.parentId)) = some (some "F")) :=
  ⟨notebook_confinement_not_enforced.1 demoNotebookTree "NB2" none none none
      "F" "nb2" 4 (by decide),
    notebook_confinement_not_enforced.2 demoNotebookTree "N" (some "F") none 4
      demoNotebookItemN (by decide) (by decide)⟩

/-! ## C6 — reorderItems and the container check -/

/-- C6 (counterexample): reordering under a plain document D is not
rejected: it returns `true` and fabricates a `children` array on D. -/
theorem reorderItems_noncontainer_counterexample :
    (reorderItemsP demoNonContainerTree (some "D") ["x"] true 5).ret = true ∧
      ((findItem (reorderItemsP demoNonContainerTree (some "D") ["x"] true
        5).stored "D").map (fun i => i.children)) = some (some ["x"]) ∧
      ((findItem (reorderItemsP demoNonContainerTree (some "D") ["x"] true
        5).stored "x").map (fun i => i.order)) = some 0 := by
  decide

/-- C6 (amended): `reorderItems` performs no container-type check: when
the non-null `parentId` names an existing item of *any* type — here one
that is not a container — the call still replaces that item's
`children` with the given id list, runs the save, and returns the save
result; nothing is rejected and nothing is left unchanged. -/
theorem reorderItems_no_container_check (data : FolderTreeData) (pid : String)
    (ids : List String) (saveOk : Bool) (now : Nat) (parent : FolderItem)
    (hpid : pid ≠ "") (hfind : findItem data pid = some parent)
    (hnc : isContainer parent.itemType = false) :
    (reorderItemsP data (some pid) ids saveOk now).ret = saveOk ∧
      (reorderItemsP data (some pid) ids saveOk now).didSave = true ∧
      (saveOk = true →
        ((findItem (reorderItemsP data (some pid) ids saveOk now).stored
          pid).map (fun i => i.children)) = some (some ids)) := by
  have htr : truthyS (some pid) = true := by simp [truthyS, hpid]
  have hfind' : data.items.find? (fun i => i.id == pid) = some parent := hfind
  refine ⟨?_, ?_, ?_⟩
  · cases saveOk <;> rfl
  · cases saveOk <;> rfl
  · intro hs
    subst hs
    unfold reorderItemsP
    dsimp only
    rw [if_pos rfl]
    rw [findItem_stamp_proj (fun i => i.children) (fun x n => rfl)]
    simp only [findItem]
    unfold assignOrders
    rw [find?_assignOrdersAux_proj (fun i => i.children) (fun x v => rfl) pid ids 0]
    rw [if_pos htr]
    simp only [Option.getD_some]
    rw [find?_updateFirst_self (fun i : FolderItem => i.id == pid)
      (fun p => { p with children := some ids }) (fun x => rfl)]
    rw [hfind']
    rfl

theorem reorderItems_no_container_check_witness :
    findItem demoNonContainerTree "D" = some demoNonContainerD ∧
      isContainer demoNonContainerD.itemType = false ∧
      ((reorderItemsP demoNonContainerTree (some "D") ["x", "D"] true 5).ret = true ∧
        (reorderItemsP demoNonContainerTree (some "D") ["x", "D"] true 5).didSave
          = true ∧
        (true = true →
          ((findItem (reorderItemsP demoNonContainerTree (some "D") ["x", "D"] true
            5).stored "D").map (fun i => i.children)) = some (some ["x", "D"]))) :=
  ⟨by decide, by decide,
    reorderItems_no_container_check demoNonContainerTree "D" ["x", "D"] true 5
      demoNonContainerD (by decide) (by decide) (by decide)⟩

/-! ## C7 — createItem -/

/-- The orders of the existing items sharing the target `parentId`
(the list `getNextOrder` maximises over). -/
def siblingOrders (data : FolderTreeData) (parentId : Option String) : List Int :=
  (data.items.filter (fun i => i.parentId == parentId)).map (fun i => i.order)

theorem getNextOrder_eq (data : FolderTreeData) (parentId : Option String) :
    getNextOrder data parentId = (siblingOrders data parentId).foldr max (-1) + 1 :=
  rfl

/-- C7: `createItem` appends exactly one item with the fresh id; its
`order` is `getNextOrder` — 0 with no siblings, and max sibling order
plus one when the sibling orders are the non-negative values the store
maintains; when the parent id names an existing container the fresh id
is appended to that parent's `children`; the call returns `null`
exactly when the save fails and the created item otherwise. -/
theorem createItem_spec (data : FolderTreeData) (name : String) (ty : ItemType)
    (blockId parentId icon color : Option String) (newId : String) (now : Nat)
    (saveOk : Bool) :
    (createItemP data name ty blockId parentId icon color newId now saveOk).didSave
        = true ∧
      (saveOk = false →
        (createItemP data name ty blockId parentId icon color newId now saveOk).ret
            = none ∧
          (createItemP data name ty blockId parentId icon color newId now
            saveOk).stored = data) ∧
      (saveOk = true →
        ∃ it, (createItemP data name ty blockId parentId icon color newId now
            saveOk).ret = some it ∧
          it.id = newId ∧ it.order = getNextOrder data parentId ∧
          ((createItemP data name ty blockId parentId icon color newId now
            saveOk).stored.items.map (fun i => i.id))
            = data.items.map (fun i => i.id) ++ [newId]) ∧
      (siblingOrders data parentId = [] → getNextOrder data parentId = 0) ∧
      ((∀ o ∈ siblingOrders data parentId, 0 ≤ o) →
        siblingOrders data parentId ≠ [] →
        (getNextOrder data parentId - 1) ∈ siblingOrders data parentId ∧
          ∀ o ∈ siblingOrders data parentId, o ≤ getNextOrder data parentId - 1) ∧
      (∀ (pid : String) (parent : FolderItem), parentId = some pid → pid ≠ "" →
        findItem data pid = some parent → isContainer parent.itemType = true →
        saveOk = true →
        ((findItem (createItemP data name ty blockId parentId icon color newId now
          saveOk).stored pid).map (fun i => i.children))
          = some (some (parent.children.getD [] ++ [newId]))) := by
  refine ⟨?_, ?_, ?_, ?_, ?_, ?_⟩
  · cases saveOk <;> rfl
  · intro hs
    subst hs
    exact ⟨rfl, rfl⟩
  · intro hs
    subst hs
    unfold createItemP
    dsimp only
    rw [if_pos rfl]
    dsimp only
    refine ⟨_, rfl, rfl, rfl, ?_⟩
    simp only [stampModified]
    rw [map_proj_map (stampItem now) (fun i => i.id) (fun x => rfl)]
    by_cases ht : truthyS parentId = true
    · rw [if_pos ht]
      have hidf : ∀ x : FolderItem,
          (fun i : FolderItem => i.id)
            ((fun p : FolderItem =>
              if isContainer p.itemType then
                { p with children := some (p.children.getD [] ++ [newId]) }
              else p) x)
            = (fun i : FolderItem => i.id) x := by
        intro x
        by_cases hc : isContainer x.itemType = true
        · simp only [if_pos hc]
        · simp only [if_neg hc]
      rw [updateFirst_map (fun i : FolderItem => i.id == parentId.getD "")
        (fun p : FolderItem =>
          if isContainer p.itemType then
            { p with children := some (p.children.getD [] ++ [newId]) }
          else p)
        (fun i : FolderItem => i.id) hidf]
      simp
    · rw [if_neg ht]
      simp
  · intro h0
    rw [getNextOrder_eq, h0]
    decide
  · intro hpos hne
    have hmem : (siblingOrders data parentId).foldr max (-1)
        ∈ siblingOrders data parentId := by
      rcases foldr_max_mem (siblingOrders data parentId) (-1) with h | h
      · rcases List.exists_mem_of_ne_nil _ hne with ⟨o, ho⟩
        have h1 := hpos o ho
        have h2 := le_foldr_max (siblingOrders data parentId) (-1) o ho
        rw [h] at h2
        omega
      · exact h
    constructor
    · rw [getNextOrder_eq]
      simpa using hmem
    · intro o ho
      have := le_foldr_max (siblingOrders data parentId) (-1) o ho
      rw [getNextOrder_eq]
      omega
  · intro pid parent hp hpne hfind hcont hs
    subst hs
    subst hp
    have htr : truthyS (some pid) = true := by simp [truthyS, hpne]
    have hfind' : data.items.find? (fun i => i.id == pid) = some parent := hfind
    unfold createItemP
    dsimp only
    rw [if_pos rfl]
    dsimp only
    rw [findItem_stamp_proj (fun i => i.children) (fun x n => rfl)]
    simp only [findItem]
    rw [if_pos htr]
    simp only [Option.getD_some]
    rw [find?_updateFirst_self (fun i : FolderItem => i.id == pid)
      (fun p =>
        if isContainer p.itemType then
          { p with children := some (p.children.getD [] ++ [newId]) }
        else p)
      (fun x => by
        by_cases hc : isContainer x.itemType = true
        · simp only [if_pos hc]
        · simp only [if_neg hc])]
    rw [find?_append_left _ parent data.items _ hfind']
    simp [hcont]

theorem createItem_spec_witness :
    findItem demoNonContainerTree "D" = some demoNonContainerD ∧
      (∀ o ∈ siblingOrders demoNonContainerTree none, 0 ≤ o) ∧
      ((createItemP demoNonContainerTree "New" .document none none none none
        "n1" 4 true).didSave = true ∧
        (true = false →
          (createItemP demoNonContainerTree "New" .document none none none none
              "n1" 4 true).ret = none ∧
            (createItemP demoNonContainerTree "New" .document none none none none
              "n1" 4 true).stored = demoNonContainerTree) ∧
        (true = true →
          ∃ it, (createItemP demoNonContainerTree "New" .document none none none
              none "n1" 4 true).ret = some it ∧
            it.id = "n1" ∧ it.order = getNextOrder demoNonContainerTree none ∧
            ((createItemP demoNonContainerTree "New" .document none none none none
              "n1" 4 true).stored.items.map (fun i => i.id))
              = demoNonContainerTree.items.map (fun i => i.id) ++ ["n1"]) ∧
        (siblingOrders demoNonContainerTree none = []
          → getNextOrder demoNonContainerTree none = 0) ∧
        ((∀ o ∈ siblingOrders demoNonContainerTree none, 0 ≤ o) →
          siblingOrders demoNonContainerTree none ≠ [] →
          (getNextOrder demoNonContainerTree none - 1)
              ∈ siblingOrders demoNonContainerTree none ∧
            ∀ o ∈ siblingOrders demoNonContainerTree none,
              o ≤ getNextOrder demoNonContainerTree none - 1) ∧
        (∀ (pid : String) (parent : FolderItem), none = some pid → pid ≠ "" →
          findItem demoNonContainerTree pid = some parent →
          isContainer parent.itemType = true → true = true →
          ((findItem (createItemP demoNonContainerTree "New" .document none none
            none none "n1" 4 true).stored pid).map (fun i => i.children))
            = some (some (parent.children.getD [] ++ ["n1"])))) :=
  ⟨by decide, by decide,
    createItem_spec demoNonContainerTree "New" .document none none none none
      "n1" 4 true⟩

/-! ## C4 — natural sort -/

/-- A folder P holding "Doc 10", "Doc 2", "Doc", "doc1". -/
def demoNamesTree : FolderTreeData :=
  { items :=
      [ { id := "P", name := "P", parentId := none, order := 0,
          itemType := .folder, children := some ["d1", "d2", "d3", "d4"] },
        { id := "d1", name := "Doc 10", parentId := some "P", order := 0,
          itemType := .document },
        { id := "d2", name := "Doc 2", parentId := some "P", order := 1,
          itemType := .document },
        { id := "d3", name := "Doc", parentId := some "P", order := 2,
          itemType := .document },
        { id := "d4", name := "doc1", parentId := some "P", order := 3,
          itemType := .document } ] }

/-- All ways to insert `x` into a list. -/
def insertionsAll (x : α) : List α → List (List α)
  | [] => [[x]]
  | y :: ys => (x :: y :: ys) :: (insertionsAll x ys).map (fun l => y :: l)

/-- All permutations (structural recursion, kernel-evaluable). -/
def permsOf : List α → List (List α)
  | [] => [[]]
  | x :: xs => (permsOf xs).flatMap (insertionsAll x)

/-- C4: `naturalSortChildren` on a folder holding "Doc 10", "Doc 2",
"Doc", "doc1" leaves the children ordered "Doc", "doc1", "Doc 2",
"Doc 10"; and the underlying comparator sorts every one of the 24
starting permutations of those four names to that same order. -/
theorem naturalSortChildren_concrete_order :
    ((getItemChildren (naturalSortChildrenOp demoNamesTree (some "P") true
      3).stored "P").map (fun i => i.name)) = ["Doc", "doc1", "Doc 2", "Doc 10"] ∧
      (permsOf ["Doc 10", "Doc 2", "Doc", "doc1"]).length = 24 ∧
      ((permsOf ["Doc 10", "Doc 2", "Doc", "doc1"]).all
        (fun l => sortNatural l == ["Doc", "doc1", "Doc 2", "Doc 10"])) = true := by
  decide

/-! ## C2 — order density -/

/-- The `order` values among the items whose `parentId` is `p`. -/
def childOrdersL (items : List FolderItem) (p : Option String) : List Int :=
  (items.filter (fun i => i.parentId == p)).map (fun i => i.order)

/-- `[0, 1, ..., n-1]` as integers. -/
def rangeInt (n : Nat) : List Int :=
  (List.range n).map Int.ofNat

/-- Order density at parent `p`: the multiset of sibling orders is
exactly `{0, 1, ..., n-1}`. -/
def denseAt (data : FolderTreeData) (p : Option String) : Prop :=
  ((childOrdersL data.items p : List Int) : Multiset Int)
    = ((rangeInt (childOrdersL data.items p).length : List Int) : Multiset Int)

instance (data : FolderTreeData) (p : Option String) : Decidable (denseAt data p) := by
  unfold denseAt; infer_instance

/-- `childOrdersL` depends only on each item's `(parentId, order)`. -/
theorem childOrdersL_eq_of_proj (p : Option String) :
    ∀ l l' : List FolderItem,
      l.map (fun i => (i.parentId, i.order)) = l'.map (fun i => (i.parentId, i.order)) →
      childOrdersL l p = childOrdersL l' p
  | [], [], _ => rfl
  | [], _ :: _, h => by simp at h
  | _ :: _, [], h => by simp at h
  | x :: xs, y :: ys, h => by
    simp only [List.map_cons, List.cons.injEq] at h
    have hpar : x.parentId = y.parentId := congrArg Prod.fst h.1
    have hord : x.order = y.order := congrArg Prod.snd h.1
    have ih := childOrdersL_eq_of_proj p xs ys h.2
    simp only [childOrdersL, List.filter_cons] at ih ⊢
    rw [hpar]
    by_cases hcond : (y.parentId == p) = true
    · simp [hcond, ih, hord]
    · simp [hcond, ih]

theorem childOrdersL_append (p : Option String) (l1 l2 : List FolderItem) :
    childOrdersL (l1 ++ l2) p = childOrdersL l1 p ++ childOrdersL l2 p := by
  simp [childOrdersL, List.filter_append]

/-- In a dense order list, `Math.max(..., -1)` is `n - 1`. -/
theorem dense_foldr_max (l : List Int)
    (h : (l : Multiset Int) = ((rangeInt l.length : List Int) : Multiset Int)) :
    l.foldr max (-1) = (l.length : Int) - 1 := by
  cases hl : l with
  | nil => decide
  | cons a t =>
    rw [← hl]
    have hperm : l.Perm (rangeInt l.length) := Multiset.coe_eq_coe.mp h
    have hmem : ∀ x : Int, x ∈ l ↔ x ∈ rangeInt l.length := fun x => hperm.mem_iff
    have hlen1 : 1 ≤ l.length := by rw [hl]; simp
    have hup : ∀ x ∈ l, x ≤ (l.length : Int) - 1 := by
      intro x hx
      have hx2 := (hmem x).mp hx
      simp only [rangeInt, List.mem_map, List.mem_range] at hx2
      rcases hx2 with ⟨k, hk, rfl⟩
      simp only [Int.ofNat_eq_coe]
      omega
    have hn1 : ((l.length : Int) - 1) ∈ l := by
      rw [hmem]
      simp only [rangeInt, List.mem_map, List.mem_range]
      refine ⟨l.length - 1, by omega, ?_⟩
      simp only [Int.ofNat_eq_coe]
      omega
    have hge : (l.length : Int) - 1 ≤ l.foldr max (-1) := le_foldr_max l (-1) _ hn1
    have hle : l.foldr max (-1) ≤ (l.length : Int) - 1 := by
      rcases foldr_max_mem l (-1) with hcase | hcase
      · rw [hcase]; omega
      · exact hup _ hcase
    omega

/-- The identity, parent and order of an item (everything `deleteItem`
cannot change on a surviving item). -/
def coreTriple (i : FolderItem) : String × Option String × Int :=
  (i.id, i.parentId, i.order)

theorem deleteRec_coreTriple : ∀ (fuel : Nat) (id : String) (items : List FolderItem),
    ((deleteRec fuel id items).map coreTriple).Sublist (items.map coreTriple)
  | 0, _, items => by simp [deleteRec]
  | fuel + 1, id, items => by
    cases hf : items.find? (fun i => i.id == id) with
    | none => simp [deleteRec, hf]
    | some item =>
      have hfold : ∀ (cs : List String) (acc : List FolderItem),
          ((cs.foldl (fun acc c => deleteRec fuel c acc) acc).map coreTriple).Sublist
            (acc.map coreTriple) := by
        intro cs
        induction cs with
        | nil => intro acc; exact List.Sublist.refl _
        | cons c cs ih =>
          intro acc
          exact (ih (deleteRec fuel c acc)).trans (deleteRec_coreTriple fuel c acc)
      simp only [deleteRec, hf]
      have h1 : ((match item.children with
          | some cs => cs.foldl (fun acc c => deleteRec fuel c acc) items
          | none => items).map coreTriple).Sublist (items.map coreTriple) := by
        cases item.children with
        | none => exact List.Sublist.refl _
        | some cs => exact hfold cs items
      set items1 := (match item.children with
        | some cs => cs.foldl (fun acc c => deleteRec fuel c acc) items
        | none => items) with hitems1
      have h2 : ((if truthyS item.parentId then
          updateFirst (fun i => i.id == item.parentId.getD "")
            (fun p =>
              match p.children with
              | some cs => { p with children := some (cs.filter (fun c => c ≠ id)) }
              | none => p) items1
        else items1).map coreTriple) = items1.map coreTriple := by
        by_cases ht : truthyS item.parentId = true
        · rw [if_pos ht]
          refine updateFirst_map _ _ coreTriple (fun x => ?_) items1
          cases hc : x.children <;> simp [coreTriple, hc]
        · rw [if_neg ht]
      refine List.Sublist.trans ?_ h1
      rw [← h2]
      exact List.Sublist.map coreTriple (List.filter_sublist _)

/-- A folder P with two children of orders 0 and 1. -/
def demoGapTree : FolderTreeData :=
  { items :=
      [ { id := "P", name := "P", parentId := none, order := 0,
          itemType := .folder, children := some ["a", "b"] },
        { id := "a", name := "a", parentId := some "P", order := 0,
          itemType := .document },
        { id := "b", name := "b", parentId := some "P", order := 1,
          itemType := .document } ] }

/-- The surviving sibling of `demoGapTree` after deleting "a". -/
def demoSurvivorB : FolderItem :=
  { id := "b", name := "b", parentId := some "P", order := 1,
    itemType := .document }

/-- C2 (counterexample): after deleting the order-0 child of P, the
remaining sibling keeps order 1, so the order set is {1}, not {0}:
`deleteItem` does not re-pack. -/
theorem delete_leaves_order_gap :
    childOrdersL (deleteItemP demoGapTree "a" true 9).stored.items (some "P") = [1] ∧
      ¬ denseAt (deleteItemP demoGapTree "a" true 9).stored (some "P") ∧
      denseAt demoGapTree (some "P") := by
  decide

/-- C2 (amended): `createItem` preserves order density at every parent
(it appends with order `max + 1`), but `deleteItem` performs no
re-packing at all: every surviving item keeps exactly its previous id,
`parentId` and `order`, so deleting a sibling whose order is not the
maximum leaves a gap. -/
theorem order_density_create_delete :
    (∀ (data : FolderTreeData) (name : String) (ty : ItemType)
      (blockId parentId icon color : Option String) (newId : String) (now : Nat),
      parentId ≠ some "" → ∀ q : Option String, denseAt data q →
      denseAt (createItemP data name ty blockId parentId icon color newId now
        true).stored q) ∧
    (∀ (data : FolderTreeData) (itemId : String) (saveOk : Bool) (now : Nat)
      (i : FolderItem), i ∈ (deleteItemP data itemId saveOk now).stored.items →
      ∃ j ∈ data.items, j.id = i.id ∧ j.parentId = i.parentId ∧ j.order = i.order) := by
  constructor
  · intro data name ty blockId parentId icon color newId now hpid q hdense
    have hnorm : (if truthyS parentId then parentId else none) = parentId := by
      cases hp : parentId with
      | none => rfl
      | some s =>
        have hs : s ≠ "" := fun h => hpid (by rw [hp, h])
        have : truthyS (some s) = true := by simp [truthyS, hs]
        rw [if_pos this]
    unfold createItemP
    dsimp only
    rw [if_pos rfl]
    dsimp only
    unfold denseAt
    set item : FolderItem :=
      { id := newId
        name := name
        blockId := blockId
        parentId := if truthyS parentId then parentId else none
        order := getNextOrder data parentId
        itemType := ty
        children := if ty == .folder || ty == .notebookT then some [] else none
        icon := if truthyS icon then icon else some (defaultIcon ty)
        color := color
        modified := now } with hitem
    have hproj : ((stampModified now
        { data with items :=
            (if truthyS parentId then
              updateFirst (fun i => i.id == parentId.getD "")
                (fun p =>
                  if isContainer p.itemType then
                    { p with children := some (p.children.getD [] ++ [newId]) }
                  else p) (data.items ++ [item])
            else data.items ++ [item]) }).items.map (fun i => (i.parentId, i.order)))
        = ((data.items ++ [item]).map (fun i => (i.parentId, i.order))) := by
      simp only [stampModified]
      rw [map_proj_map (stampItem now) (fun i => (i.parentId, i.order)) (fun x => rfl)]
      by_cases ht : truthyS parentId = true
      · rw [if_pos ht]
        refine updateFirst_map (fun i : FolderItem => i.id == parentId.getD "")
          (fun p : FolderItem =>
            if isContainer p.itemType then
              { p with children := some (p.children.getD [] ++ [newId]) }
            else p)
          (fun i : FolderItem => (i.parentId, i.order)) (fun x => ?_) _
        by_cases hc : isContainer x.itemType = true
        · simp only [if_pos hc]
        · simp only [if_neg hc]
      · rw [if_neg ht]
    have hco := childOrdersL_eq_of_proj q _ _ hproj
    rw [hco]
    rw [childOrdersL_append]
    have hsingle : childOrdersL [item] q
        = (if (item.parentId == q) = true then [item.order] else []) := by
      simp only [childOrdersL, List.filter_cons, List.filter_nil]
      by_cases hcq : (item.parentId == q) = true
      · simp [hcq]
      · simp [hcq]
    rw [hsingle]
    by_cases hq : parentId = q
    · subst hq
      have hbeq : (item.parentId == parentId) = true := by
        rw [hitem]
        dsimp only
        rw [hnorm]
        exact beq_self_eq_true parentId
      rw [if_pos hbeq]
      have hord : item.order = getNextOrder data parentId := rfl
      unfold denseAt at hdense
      have hfold := dense_foldr_max (childOrdersL data.items parentId) hdense
      have hord2 : item.order = ((childOrdersL data.items parentId).length : Int) := by
        rw [hord, getNextOrder_eq]
        have : siblingOrders data parentId = childOrdersL data.items parentId := rfl
        rw [this, hfold]
        omega
      rw [hord2]
      have hlen : (childOrdersL data.items parentId
          ++ [((childOrdersL data.items parentId).length : Int)]).length
          = (childOrdersL data.items parentId).length + 1 := by simp
      rw [hlen]
      have hrange : rangeInt ((childOrdersL data.items parentId).length + 1)
          = rangeInt (childOrdersL data.items parentId).length
            ++ [Int.ofNat (childOrdersL data.items parentId).length] := by
        simp [rangeInt, List.range_succ]
      rw [hrange]
      simp only [← Multiset.coe_add]
      rw [hdense]
      simp [Int.ofNat_eq_coe]
    · have hbeq : (item.parentId == q) = false := by
        rw [hitem]
        dsimp only
        rw [hnorm]
        exact beq_eq_false_iff_ne.mpr hq
      rw [hbeq]
      simp only [if_neg (by simp : ¬ (false = true))]
      rw [List.append_nil]
      exact hdense
  · intro data itemId saveOk now i hi
    have key : ∀ j : FolderItem,
        j ∈ deleteRec (data.items.length + 1) itemId data.items →
        ∃ j0 ∈ data.items, j0.id = j.id ∧ j0.parentId = j.parentId ∧
          j0.order = j.order := by
      intro j hj
      have hsub := deleteRec_coreTriple (data.items.length + 1) itemId data.items
      have hmem : coreTriple j ∈ data.items.map coreTriple :=
        hsub.subset (List.mem_map.mpr ⟨j, hj, rfl⟩)
      rcases List.mem_map.mp hmem with ⟨j0, hj0, hjt⟩
      exact ⟨j0, hj0, congrArg Prod.fst hjt,
        congrArg (fun t => t.2.1) hjt, congrArg (fun t => t.2.2) hjt⟩
    have hstored : (deleteItemP data itemId saveOk now).stored
        = (if saveOk then stampModified now
            { data with items := deleteRec (data.items.length + 1) itemId data.items }
          else data) := by
      unfold deleteItemP
      cases saveOk <;> rfl
    rw [hstored] at hi
    cases hs : saveOk with
    | true =>
      rw [hs, if_pos rfl] at hi
      simp only [stampModified, List.mem_map] at hi
      rcases hi with ⟨j, hj, rfl⟩
      rcases key j hj with ⟨j0, hj0, h1, h2, h3⟩
      exact ⟨j0, hj0, h1, h2, h3⟩
    | false =>
      rw [hs, if_neg (by simp : ¬ (false = true))] at hi
      exact ⟨i, hi, rfl, rfl, rfl⟩

theorem order_density_create_delete_witness :
    ((some "P" : Option String) ≠ some "" ∧ denseAt demoGapTree (some "P") ∧
      denseAt (createItemP demoGapTree "c" .document none (some "P") none none
        "c1" 4 true).stored (some "P")) ∧
    (stampItem 9 demoSurvivorB ∈ (deleteItemP demoGapTree "a" true 9).stored.items ∧
      ∃ j ∈ demoGapTree.items,
        j.id = (stampItem 9 demoSurvivorB).id ∧
        j.parentId = (stampItem 9 demoSurvivorB).parentId ∧
        j.order = (stampItem 9 demoSurvivorB).order) :=
  ⟨⟨by decide, by decide,
      order_density_create_delete.1 demoGapTree "c" .document none (some "P")
        none none "c1" 4 (by decide) (some "P") (by decide)⟩,
    ⟨by decide,
      order_density_create_delete.2 demoGapTree "a" true 9 _ (by decide)⟩⟩

/-! ## C10 — listener fan-out isolates failures -/

/-- C10: every registered listener is invoked exactly once with the
current tree data — the notification log has one entry per listener,
entry i being exactly listener i's (caught) outcome on that data, no
matter which earlier listeners threw — and the mutation's returned
flag equals the persistence result regardless of listener outcomes. -/
theorem listener_fanout_isolated (ls : List ListenerFn) (d : FolderTreeData)
    (persistOk : Bool) :
    (notifyDataChange ls d).length = ls.length ∧
      (∀ i : Nat, (notifyDataChange ls d)[i]?
        = (ls[i]?).map (fun f => caughtError (f d))) ∧
      (coreSaveData persistOk ls d).1 = persistOk := by
  refine ⟨?_, ?_, ?_⟩
  · induction ls with
    | nil => rfl
    | cons f rest ih => simp [notifyDataChange, ih]
  · intro i
    induction ls generalizing i with
    | nil => simp [notifyDataChange]
    | cons f rest ih =>
      cases i with
      | zero => simp [notifyDataChange]
      | succ j => simp [notifyDataChange, ih j]
  · cases persistOk <;> rfl

/-! ## C9 — helper lemmas for the query-block reconciliation -/

theorem contains_iff_mem (l : List String) (a : String) :
    l.contains a = true ↔ a ∈ l := by
  simp

/-- First index satisfying `(· == a)`, structurally. -/
def findIdxA (p : α → Bool) : List α → Option Nat
  | [] => none
  | x :: xs => if p x then some 0 else (findIdxA p xs).map (fun j => j + 1)

theorem findIdxA_none (a : String) :
    ∀ l : List String, a ∉ l → findIdxA (fun x => x == a) l = none
  | [], _ => rfl
  | x :: xs, h => by
    have hx : (x == a) = false := by
      simp only [beq_eq_false_iff_ne]
      intro hxa
      exact h (hxa ▸ List.mem_cons_self x xs)
    simp only [findIdxA, hx, Bool.false_eq_true, if_false,
      findIdxA_none a xs (fun hm => h (List.mem_cons_of_mem x hm))]
    rfl

theorem findIdxA_isSome (a : String) :
    ∀ l : List String, a ∈ l → ∃ j, findIdxA (fun x => x == a) l = some j
  | [], h => absurd h (List.not_mem_nil a)
  | x :: xs, h => by
    by_cases hx : (x == a) = true
    · exact ⟨0, by simp [findIdxA, hx]⟩
    · have hxs : a ∈ xs := by
        rcases List.mem_cons.mp h with h1 | h1
        · exact absurd (by simp [h1]) hx
        · exact h1
      obtain ⟨j, hj⟩ := findIdxA_isSome a xs hxs
      exact ⟨j + 1, by simp [findIdxA, hx, hj]⟩

theorem findIdxA_map_inj (g : String → String) :
    ∀ (l : List String), (∀ x ∈ l, ∀ y ∈ l, g x = g y → x = y) →
    ∀ b ∈ l, findIdxA (fun x => x == g b) (l.map g)
      = findIdxA (fun x => x == b) l
  | [], _, b, hb => absurd hb (List.not_mem_nil b)
  | x :: xs, hinj, b, hb => by
    by_cases hx : x = b
    · subst hx
      simp [findIdxA]
    · have hgx : (g x == g b) = false := by
        simp only [beq_eq_false_iff_ne]
        intro h
        exact hx (hinj x (List.mem_cons_self x xs) b hb h)
      have hxb : (x == b) = false := by simp [hx]
      have hbxs : b ∈ xs := by
        rcases List.mem_cons.mp hb with h | h
        · exact absurd h.symm hx
        · exact h
      simp only [List.map_cons, findIdxA, hgx, hxb, Bool.false_eq_true, if_false]
      rw [findIdxA_map_inj g xs
        (fun u hu v hv => hinj u (List.mem_cons_of_mem x hu) v (List.mem_cons_of_mem x hv))
        b hbxs]

theorem findIdxA_get_nodup :
    ∀ (l : List String), l.Nodup → ∀ (j : Nat) (hj : j < l.length),
      findIdxA (fun x => x == l.get ⟨j, hj⟩) l = some j
  | [], _, j, hj => absurd hj (by simp)
  | x :: xs, hnd, 0, _ => by simp [findIdxA]
  | x :: xs, hnd, j + 1, hj => by
    have hget : (x :: xs).get ⟨j + 1, hj⟩ = xs.get ⟨j, by simpa using hj⟩ := rfl
    have hmem : xs.get ⟨j, by simpa using hj⟩ ∈ xs :=
      List.get_mem xs j (by simpa using hj)
    have hx : (x == xs.get ⟨j, by simpa using hj⟩) = false := by
      simp only [beq_eq_false_iff_ne]
      intro h
      exact (List.nodup_cons.mp hnd).1 (h ▸ hmem)
    rw [hget]
    simp only [findIdxA, hx, Bool.false_eq_true, if_false]
    rw [findIdxA_get_nodup xs (List.nodup_cons.mp hnd).2 j (by simpa using hj)]
    rfl

theorem applyReorderQ_map_proj {β : Type} (g : QChild → β)
    (hg : ∀ (c : QChild) (v : Int), g { c with order := v } = g c) :
    ∀ (ids : List String) (k : Nat) (cs : List QChild),
      (applyReorderQ k ids cs).map g = cs.map g
  | [], _, _ => rfl
  | id :: rest, k, cs => by
    simp only [applyReorderQ]
    rw [applyReorderQ_map_proj g hg rest (k + 1) _]
    exact updateFirst_map _ _ g (fun x => hg x _) cs

/-- A record update that writes the existing value is the identity. -/
theorem qchild_update_self (c : QChild) (v : Int) (h : c.order = v) :
    ({ c with order := v } : QChild) = c := by
  cases c
  simp_all

theorem applyReorderQ_char :
    ∀ (ids : List String) (k : Nat) (cs : List QChild),
      ids.Nodup → (cs.map (fun c => c.id)).Nodup →
      applyReorderQ k ids cs = cs.map (fun c =>
        match findIdxA (fun i => i == c.id) ids with
        | some j => { c with order := ((k + j : Nat) : Int) }
        | none => c)
  | [], k, cs, _, _ => by
    simp [applyReorderQ, findIdxA]
  | id :: rest, k, cs, hids, hcs => by
    have hrest : rest.Nodup := (List.nodup_cons.mp hids).2
    have hnotin : id ∉ rest := (List.nodup_cons.mp hids).1
    have hcs' : ((updateFirst (fun c => c.id == id)
        (fun c => { c with order := (k : Int) }) cs).map (fun c => c.id)).Nodup := by
      rw [updateFirst_map (fun c : QChild => c.id == id)
        (fun c : QChild => { c with order := (k : Int) })
        (fun c : QChild => c.id) (fun x => rfl)]
      exact hcs
    simp only [applyReorderQ]
    rw [applyReorderQ_char rest (k + 1) _ hrest hcs']
    -- pointwise: replace the updated list by the combined index function
    clear hcs'
    induction cs with
    | nil => rfl
    | cons x xs ih =>
      have hx_nodup : x.id ∉ xs.map (fun c => c.id) := (List.nodup_cons.mp hcs).1
      have hxs_nodup : (xs.map (fun c => c.id)).Nodup := (List.nodup_cons.mp hcs).2
      have shift : ∀ y : QChild, y.id ≠ id →
          (match findIdxA (fun i => i == y.id) rest with
           | some j => { y with order := (((k + 1) + j : Nat) : Int) }
           | none => y)
          = (match findIdxA (fun i => i == y.id) (id :: rest) with
             | some j => { y with order := ((k + j : Nat) : Int) }
             | none => y) := by
        intro y hy
        have hhead : (id == y.id) = false := by
          simp only [beq_eq_false_iff_ne]
          exact fun h => hy h.symm
        simp only [findIdxA, hhead, Bool.false_eq_true, if_false]
        cases hf : findIdxA (fun i => i == y.id) rest with
        | none => rfl
        | some j =>
          show ({ y with order := (((k + 1) + j : Nat) : Int) } : QChild)
            = { y with order := ((k + (j + 1) : Nat) : Int) }
          have harith : (k + 1) + j = k + (j + 1) := by omega
          rw [harith]
      by_cases hx : (x.id == id) = true
      · have hxid : x.id = id := by simpa using hx
        simp only [updateFirst, hx, if_true, List.map_cons]
        have hhead1 : findIdxA (fun i => i == ({ x with order := (k : Int) } : QChild).id)
            rest = none := by
          have : ({ x with order := (k : Int) } : QChild).id = x.id := rfl
          rw [this, hxid]
          exact findIdxA_none id rest hnotin
        have hhead2 : findIdxA (fun i => i == x.id) (id :: rest) = some 0 := by
          have : (id == x.id) = true := by simp [hxid]
          simp [findIdxA, this]
        rw [hhead1, hhead2]
        have htails : xs.map (fun c =>
            match findIdxA (fun i => i == c.id) rest with
            | some j => { c with order := (((k + 1) + j : Nat) : Int) }
            | none => c)
            = xs.map (fun c =>
              match findIdxA (fun i => i == c.id) (id :: rest) with
              | some j => { c with order := ((k + j : Nat) : Int) }
              | none => c) := by
          refine List.map_congr_left (fun y hy => ?_)
          refine shift y ?_
          intro hyid
          apply hx_nodup
          rw [hxid, ← hyid]
          exact List.mem_map.mpr ⟨y, hy, rfl⟩
        rw [htails]
        simp
      · have hxid : x.id ≠ id := by simpa using hx
        simp only [updateFirst, hx, Bool.false_eq_true, if_false, List.map_cons]
        rw [ih hxs_nodup]
        rw [shift x hxid]

theorem sorted_nodup_orders_eq :
    ∀ (l1 l2 : List QChild), l1.Perm l2 → l1.Pairwise qLe → l2.Pairwise qLe →
      (l1.map (fun c => c.order)).Nodup → l1 = l2
  | [], l2, hp, _, _, _ => hp.nil_eq
  | a :: t1, l2, hp, hs1, hs2, hnd => by
    cases l2 with
    | nil =>
      have := hp.length_eq
      simp at this
    | cons b t2 =>
      have hab : a = b := by
        have hain : a ∈ b :: t2 := hp.mem_iff.mp (List.mem_cons_self a t1)
        have hbin : b ∈ a :: t1 := hp.mem_iff.mpr (List.mem_cons_self b t2)
        rcases List.mem_cons.mp hain with h | h
        · exact h
        · rcases List.mem_cons.mp hbin with h2 | h2
          · exact h2.symm
          · have h1 : a.order ≤ b.order := (List.pairwise_cons.mp hs1).1 b h2
            have h2q : b.order ≤ a.order := (List.pairwise_cons.mp hs2).1 a h
            have hord : a.order = b.order := le_antisymm h1 h2q
            have hmm : a.order ∈ t1.map (fun c => c.order) :=
              List.mem_map.mpr ⟨b, h2, hord.symm⟩
            exact absurd hmm (List.nodup_cons.mp hnd).1
      subst hab
      have ht : t1.Perm t2 := hp.cons_inv
      rw [sorted_nodup_orders_eq t1 t2 ht (List.pairwise_cons.mp hs1).2
        (List.pairwise_cons.mp hs2).2 (List.nodup_cons.mp hnd).2]

/-- Characterisation of the creation loop: the children it appends
carry exactly the result ids with no snapshot match (in order), with
ids drawn as a prefix of the fresh-id supply. -/
theorem createLoop_spec (snapshot : List QChild) :
    ∀ (bs : List String) (cur : List QChild) (created fresh : List String),
      (bs.filter (fun b =>
        (snapshot.find? (fun c => c.blockId == some b)).isNone)).length
        ≤ fresh.length →
      ∃ nw : List QChild,
        createLoop snapshot bs cur created fresh
            = (cur ++ nw, created ++ nw.map (fun c => c.id)) ∧
          nw.map (fun c => c.blockId)
            = (bs.filter (fun b =>
                (snapshot.find? (fun c => c.blockId == some b)).isNone)).map some ∧
          nw.map (fun c => c.id) = fresh.take nw.length
  | [], cur, created, fresh, _ => ⟨[], by simp [createLoop], by simp, by simp⟩
  | b :: rest, cur, created, fresh, hlen => by
    cases hf : snapshot.find? (fun c => c.blockId == some b) with
    | some c0 =>
      have hpred : ((snapshot.find? (fun c => c.blockId == some b)).isNone) = false := by
        simp [hf]
      have hfilter : (b :: rest).filter (fun b =>
          (snapshot.find? (fun c => c.blockId == some b)).isNone)
          = rest.filter (fun b =>
            (snapshot.find? (fun c => c.blockId == some b)).isNone) := by
        simp [List.filter_cons, hpred]
      rw [hfilter] at hlen
      obtain ⟨nw, h1, h2, h3⟩ := createLoop_spec snapshot rest cur created fresh hlen
      refine ⟨nw, ?_, ?_, h3⟩
      · simp only [createLoop, hf]
        exact h1
      · rw [hfilter]
        exact h2
    | none =>
      have hpred : ((snapshot.find? (fun c => c.blockId == some b)).isNone) = true := by
        simp [hf]
      have hfilter : (b :: rest).filter (fun b =>
          (snapshot.find? (fun c => c.blockId == some b)).isNone)
          = b :: rest.filter (fun b =>
            (snapshot.find? (fun c => c.blockId == some b)).isNone) := by
        simp [List.filter_cons, hpred]
      rw [hfilter] at hlen
      cases fresh with
      | nil => simp at hlen
      | cons fid fs =>
        have hlen' : (rest.filter (fun b =>
            (snapshot.find? (fun c => c.blockId == some b)).isNone)).length
            ≤ fs.length := by
          simpa using hlen
        obtain ⟨nw', h1, h2, h3⟩ := createLoop_spec snapshot rest
          (cur ++ [{ id := fid, blockId := some b, order := qNextOrder cur }])
          (created ++ [fid]) fs hlen'
        refine ⟨{ id := fid, blockId := some b, order := qNextOrder cur } :: nw',
          ?_, ?_, ?_⟩
        · simp only [createLoop, hf]
          rw [h1]
          simp
        · rw [hfilter]
          simp [h2]
        · simp [h3]

/-! Named pieces of one reconciliation run (proof accessories over the
same definitions). -/

def syncKept (E : List QChild) (results : List String) : List QChild :=
  E.filter (fun c => !(isStale results c))

def syncA (E : List QChild) (results fresh : List String) : List QChild :=
  (createLoop E results (syncKept E results) [] fresh).1

def syncOrderedIds (E : List QChild) (results fresh : List String) : List String :=
  results.filterMap (fun b =>
    ((sortQ (syncA E results fresh)).find? (fun c => c.blockId == some b)).map
      (fun c => c.id))

theorem updateQueryBlockChildren_eq (E : List QChild) (results fresh : List String)
    (hne : results.isEmpty = false) :
    (updateQueryBlockChildren E results fresh).children
        = (if (syncOrderedIds E results fresh).isEmpty then syncA E results fresh
          else applyReorderQ 0 (syncOrderedIds E results fresh) (syncA E results fresh)) ∧
      (updateQueryBlockChildren E results fresh).created
        = (createLoop E results (syncKept E results) [] fresh).2 ∧
      (updateQueryBlockChildren E results fresh).deleted
        = (E.filter (isStale results)).map (fun c => c.id) := by
  unfold updateQueryBlockChildren syncOrderedIds syncA syncKept
  rw [if_neg (by rw [hne]; exact Bool.false_ne_true)]
  exact ⟨rfl, rfl, rfl⟩

/-- The order-assignment function `applyReorderQ 0 ids` acts as,
element-wise, when ids and child ids are duplicate-free. -/
def reorderFF (ids : List String) (c : QChild) : QChild :=
  match findIdxA (fun i => i == c.id) ids with
  | some j => { c with order := ((0 + j : Nat) : Int) }
  | none => c

theorem applyReorderQ_char0 (ids : List String) (cs : List QChild)
    (hids : ids.Nodup) (hcs : (cs.map (fun c => c.id)).Nodup) :
    applyReorderQ 0 ids cs = cs.map (reorderFF ids) :=
  applyReorderQ_char ids 0 cs hids hcs

theorem reorderFF_id (ids : List String) (c : QChild) :
    (reorderFF ids c).id = c.id := by
  unfold reorderFF
  cases h : findIdxA (fun i => i == c.id) ids <;> rfl

theorem reorderFF_blockId (ids : List String) (c : QChild) :
    (reorderFF ids c).blockId = c.blockId := by
  unfold reorderFF
  cases h : findIdxA (fun i => i == c.id) ids <;> rfl

theorem reorderFF_order (ids : List String) (c : QChild) (j : Nat)
    (h : findIdxA (fun i => i == c.id) ids = some j) :
    (reorderFF ids c).order = (j : Int) := by
  unfold reorderFF
  rw [h]
  simp

/-- Canonical child for a result id: the unique synchronized child
whose `blockId` is that id. -/
def syncChildFor (E : List QChild) (results fresh : List String) (b : String) : QChild :=
  ((sortQ (syncA E results fresh)).find? (fun c => c.blockId == some b)).getD
    ⟨"", none, 0⟩

/-- Everything one reconciliation run guarantees about the resulting
children when the inputs are well-formed: duplicate-free ids, each
child synchronized to exactly one result id and ordered by the result
position, and the sorted view listing the `blockId`s in result order. -/
theorem sync_chars (E : List QChild) (results fresh : List String)
    (hidN : (E.map (fun c => c.id)).Nodup)
    (hbk : ∀ c ∈ E, truthyS c.blockId = true)
    (hbkN : (E.map (fun c => c.blockId)).Nodup)
    (hres : results.Nodup)
    (hresne : ∀ b ∈ results, b ≠ "")
    (hfN : fresh.Nodup)
    (hfdisj : ∀ i ∈ fresh, ¬ i ∈ E.map (fun c => c.id))
    (hflen : results.length ≤ fresh.length)
    (hne : results ≠ []) :
    (updateQueryBlockChildren E results fresh).children
        = (syncA E results fresh).map (reorderFF (syncOrderedIds E results fresh)) ∧
      ((updateQueryBlockChildren E results fresh).children.map
        (fun c => c.id)).Nodup ∧
      (∀ c ∈ (updateQueryBlockChildren E results fresh).children,
        ∃ b ∈ results, c.blockId = some b) ∧
      ((updateQueryBlockChildren E results fresh).children.map
        (fun c => c.blockId)).Nodup ∧
      (∀ b ∈ results, ∃ c ∈ (updateQueryBlockChildren E results fresh).children,
        c.blockId = some b) ∧
      (∀ c ∈ (updateQueryBlockChildren E results fresh).children,
        ∃ b j, c.blockId = some b ∧ findIdxA (fun x => x == b) results = some j ∧
          c.order = (j : Int)) ∧
      ((sortQ (updateQueryBlockChildren E results fresh).children).map
        (fun c => c.blockId) = results.map some) := by
  have hempty : results.isEmpty = false := by
    cases results with
    | nil => exact absurd rfl hne
    | cons b bs => rfl
  obtain ⟨hch, hcr, hdel⟩ := updateQueryBlockChildren_eq E results fresh hempty
  -- run the creation-loop characterisation
  obtain ⟨nw, hcl, hbw, hiw⟩ := createLoop_spec E results (syncKept E results) []
    fresh (le_trans (List.length_filter_le _ _) hflen)
  have hA : syncA E results fresh = syncKept E results ++ nw := by
    unfold syncA
    rw [hcl]
  -- kept facts
  have hkept_sub : (syncKept E results).Sublist E := List.filter_sublist E
  have hkept_mem : ∀ c ∈ syncKept E results, c ∈ E := fun c hc => hkept_sub.subset hc
  have hkept_bk : ∀ c ∈ syncKept E results, ∃ b ∈ results, c.blockId = some b := by
    intro c hc
    have hcE := hkept_mem c hc
    have htr := hbk c hcE
    cases hbid : c.blockId with
    | none =>
      rw [hbid] at htr
      exact absurd htr (by simp [truthyS])
    | some s =>
      have hs : s ≠ "" := by
        rw [hbid] at htr
        simpa [truthyS] using htr
      have hfilt := (List.mem_filter.mp hc).2
      have hstale : isStale results c = false := by simpa using hfilt
      unfold isStale at hstale
      rw [hbid] at hstale
      have htrs : truthyS (some s) = true := by simp [truthyS, hs]
      rw [htrs] at hstale
      simp only [Bool.true_and, Bool.not_eq_false'] at hstale
      exact ⟨s, (contains_iff_mem results s).mp (by simpa using hstale), rfl⟩
  have hnw_bk : ∀ c ∈ nw, ∃ b ∈ results, c.blockId = some b := by
    intro c hc
    have hmm : c.blockId ∈ nw.map (fun c => c.blockId) := List.mem_map.mpr ⟨c, hc, rfl⟩
    rw [hbw] at hmm
    rcases List.mem_map.mp hmm with ⟨b, hbneeded, hbeq⟩
    exact ⟨b, (List.mem_filter.mp hbneeded).1, hbeq.symm⟩
  have hA_bk : ∀ c ∈ syncA E results fresh, ∃ b ∈ results, c.blockId = some b := by
    intro c hc
    rw [hA] at hc
    rcases List.mem_append.mp hc with h | h
    exacts [hkept_bk c h, hnw_bk c h]
  -- id nodup on A
  have hkept_ids : ((syncKept E results).map (fun c => c.id)).Nodup :=
    (hkept_sub.map _).nodup hidN
  have hnw_ids_sub : (nw.map (fun c => c.id)).Sublist fresh := by
    rw [hiw]
    exact List.take_sublist _ _
  have hnw_ids : (nw.map (fun c => c.id)).Nodup := hnw_ids_sub.nodup hfN
  have hA_ids : ((syncA E results fresh).map (fun c => c.id)).Nodup := by
    rw [hA, List.map_append, List.nodup_append]
    refine ⟨hkept_ids, hnw_ids, ?_⟩
    intro x hx hx2
    have hxE : x ∈ E.map (fun c => c.id) := (hkept_sub.map _).subset hx
    have hxf : x ∈ fresh := hnw_ids_sub.subset hx2
    exact hfdisj x hxf hxE
  -- blockId nodup on A
  have hkept_bids : ((syncKept E results).map (fun c => c.blockId)).Nodup :=
    (hkept_sub.map _).nodup hbkN
  have hneed_nodup : (results.filter (fun b =>
      (E.find? (fun c => c.blockId == some b)).isNone)).Nodup := hres.filter _
  have hnw_bids_nodup : (nw.map (fun c => c.blockId)).Nodup := by
    rw [hbw]
    exact List.Nodup.map (Option.some_injective String) hneed_nodup
  have hA_bids : ((syncA E results fresh).map (fun c => c.blockId)).Nodup := by
    rw [hA, List.map_append, List.nodup_append]
    refine ⟨hkept_bids, hnw_bids_nodup, ?_⟩
    intro v hv hv2
    rw [hbw] at hv2
    rcases List.mem_map.mp hv2 with ⟨b, hbn, rfl⟩
    have hfindn := (List.mem_filter.mp hbn).2
    have hnone : E.find? (fun c => c.blockId == some b) = none := by
      cases hcase : E.find? (fun c => c.blockId == some b) with
      | none => rfl
      | some c0 => rw [hcase] at hfindn; simp at hfindn
    have hforall := List.find?_eq_none.mp hnone
    rcases List.mem_map.mp hv with ⟨c, hck, hcb⟩
    exact hforall c (hkept_mem c hck) (by rw [hcb]; exact beq_self_eq_true _)
  -- uniqueness of the blockId-keyed child
  have huniq : ∀ (b : String), ∀ c1 ∈ syncA E results fresh,
      ∀ c2 ∈ syncA E results fresh,
      c1.blockId = some b → c2.blockId = some b → c1 = c2 := by
    intro b c1 h1 c2 h2 hb1 hb2
    exact List.inj_on_of_nodup_map hA_bids h1 h2 (by rw [hb1, hb2])
  -- coverage of result ids
  have hA_cover : ∀ b ∈ results, ∃ c ∈ syncA E results fresh, c.blockId = some b := by
    intro b hb
    cases hfcase : E.find? (fun c => c.blockId == some b) with
    | some c0 =>
      have hc0E : c0 ∈ E := List.mem_of_find?_eq_some hfcase
      have hc0b : c0.blockId = some b := by
        have := List.find?_some hfcase
        simpa using this
      have hc0kept : c0 ∈ syncKept E results := by
        refine List.mem_filter.mpr ⟨hc0E, ?_⟩
        unfold isStale
        rw [hc0b]
        simp [truthyS, hresne b hb]
        exact hb
      exact ⟨c0, by rw [hA]; exact List.mem_append.mpr (Or.inl hc0kept), hc0b⟩
    | none =>
      have hbneeded : b ∈ results.filter (fun b =>
          (E.find? (fun c => c.blockId == some b)).isNone) :=
        List.mem_filter.mpr ⟨hb, by rw [hfcase]; rfl⟩
      have hmm : some b ∈ nw.map (fun c => c.blockId) := by
        rw [hbw]
        exact List.mem_map.mpr ⟨b, hbneeded, rfl⟩
      rcases List.mem_map.mp hmm with ⟨c, hcn, hcb⟩
      exact ⟨c, by rw [hA]; exact List.mem_append.mpr (Or.inr hcn), hcb⟩
  -- the canonical child and its find? equation
  have hg_spec : ∀ b ∈ results,
      (sortQ (syncA E results fresh)).find? (fun c => c.blockId == some b)
          = some (syncChildFor E results fresh b) ∧
        syncChildFor E results fresh b ∈ syncA E results fresh ∧
        (syncChildFor E results fresh b).blockId = some b := by
    intro b hb
    rcases hA_cover b hb with ⟨cb, hcbA, hcbb⟩
    have hmemS : cb ∈ sortQ (syncA E results fresh) := by
      unfold sortQ
      rw [List.mem_insertionSort]
      exact hcbA
    have hfind : (sortQ (syncA E results fresh)).find?
        (fun c => c.blockId == some b) = some cb := by
      refine find?_eq_some_of_unique _ cb _ hmemS (by rw [hcbb]; exact beq_self_eq_true _) ?_
      intro y hy hyp
      have hyA : y ∈ syncA E results fresh := by
        unfold sortQ at hy
        rw [List.mem_insertionSort] at hy
        exact hy
      have hyb : y.blockId = some b := by simpa using hyp
      exact huniq b y hyA cb hcbA hyb hcbb
    have hcfor : syncChildFor E results fresh b = cb := by
      unfold syncChildFor
      rw [hfind]
      rfl
    rw [hcfor]
    exact ⟨hfind, hcbA, hcbb⟩
  -- orderedIds as a map
  have hOI : syncOrderedIds E results fresh
      = results.map (fun b => (syncChildFor E results fresh b).id) := by
    unfold syncOrderedIds
    refine filterMap_eq_map_of_some _ _ results (fun b hb => ?_)
    rw [(hg_spec b hb).1]
    rfl
  have hg_inj : ∀ b1 ∈ results, ∀ b2 ∈ results,
      (syncChildFor E results fresh b1).id = (syncChildFor E results fresh b2).id →
      b1 = b2 := by
    intro b1 h1 b2 h2 heq
    obtain ⟨_, hc1A, hc1b⟩ := hg_spec b1 h1
    obtain ⟨_, hc2A, hc2b⟩ := hg_spec b2 h2
    have hcc : syncChildFor E results fresh b1 = syncChildFor E results fresh b2 :=
      List.inj_on_of_nodup_map hA_ids hc1A hc2A heq
    have : some b1 = some b2 := by rw [← hc1b, hcc, hc2b]
    exact Option.some.inj this
  have hOI_nodup : (syncOrderedIds E results fresh).Nodup := by
    rw [hOI]
    exact List.Nodup.map_on hg_inj hres
  have hOI_ne : ¬ (syncOrderedIds E results fresh).isEmpty = true := by
    rw [hOI]
    cases hresc : results with
    | nil => exact absurd hresc hne
    | cons b bs => simp
  -- the children list
  have hfinal : (updateQueryBlockChildren E results fresh).children
      = applyReorderQ 0 (syncOrderedIds E results fresh) (syncA E results fresh) := by
    rw [hch, if_neg hOI_ne]
  have hcharApplied : (updateQueryBlockChildren E results fresh).children
      = (syncA E results fresh).map (reorderFF (syncOrderedIds E results fresh)) := by
    rw [hfinal]
    exact applyReorderQ_char0 _ _ hOI_nodup hA_ids
  refine ⟨hcharApplied, ?_, ?_, ?_, ?_, ?_, ?_⟩
  · rw [hcharApplied]
    rw [map_proj_map (reorderFF (syncOrderedIds E results fresh)) (fun c => c.id)
      (fun x => reorderFF_id _ x)]
    exact hA_ids
  · intro c hc
    rw [hcharApplied] at hc
    rcases List.mem_map.mp hc with ⟨a, haA, rfl⟩
    rcases hA_bk a haA with ⟨b, hb, hab⟩
    exact ⟨b, hb, by rw [reorderFF_blockId, hab]⟩
  · rw [hcharApplied]
    rw [map_proj_map (reorderFF (syncOrderedIds E results fresh)) (fun c => c.blockId)
      (fun x => reorderFF_blockId _ x)]
    exact hA_bids
  · intro b hb
    obtain ⟨_, hcbA, hcbb⟩ := hg_spec b hb
    refine ⟨reorderFF (syncOrderedIds E results fresh) (syncChildFor E results fresh b),
      ?_, by rw [reorderFF_blockId]; exact hcbb⟩
    rw [hcharApplied]
    exact List.mem_map.mpr ⟨_, hcbA, rfl⟩
  · intro c hc
    rw [hcharApplied] at hc
    rcases List.mem_map.mp hc with ⟨a, haA, rfl⟩
    rcases hA_bk a haA with ⟨b, hb, hab⟩
    have hcfa : syncChildFor E results fresh b = a := by
      obtain ⟨_, hcbA, hcbb⟩ := hg_spec b hb
      exact huniq b _ hcbA a haA hcbb hab
    have hidx : findIdxA (fun i => i == a.id) (syncOrderedIds E results fresh)
        = findIdxA (fun x => x == b) results := by
      rw [hOI]
      have := findIdxA_map_inj (fun b => (syncChildFor E results fresh b).id)
        results hg_inj b hb
      dsimp only at this
      rw [hcfa] at this
      exact this
    obtain ⟨j, hj⟩ := findIdxA_isSome b results hb
    refine ⟨b, j, by rw [reorderFF_blockId]; exact hab, hj, ?_⟩
    exact reorderFF_order _ a j (by rw [hidx]; exact hj)
  · -- the sorted view lists blockIds in result order
    have hcFor_inj : ∀ b1 ∈ results, ∀ b2 ∈ results,
        syncChildFor E results fresh b1 = syncChildFor E results fresh b2 → b1 = b2 := by
      intro b1 h1 b2 h2 heq
      exact hg_inj b1 h1 b2 h2 (by rw [heq])
    have hApermMap : (syncA E results fresh).Perm
        (results.map (syncChildFor E results fresh)) := by
      have hAnodup : (syncA E results fresh).Nodup :=
        List.Nodup.of_map (fun c => c.id) hA_ids
      have hmapnodup : (results.map (syncChildFor E results fresh)).Nodup :=
        List.Nodup.map_on hcFor_inj hres
      rw [List.perm_ext_iff_of_nodup hAnodup hmapnodup]
      intro x
      constructor
      · intro hx
        rcases hA_bk x hx with ⟨b, hb, hxb⟩
        obtain ⟨_, hcbA, hcbb⟩ := hg_spec b hb
        have : syncChildFor E results fresh b = x := huniq b _ hcbA x hx hcbb hxb
        exact List.mem_map.mpr ⟨b, hb, this⟩
      · intro hx
        rcases List.mem_map.mp hx with ⟨b, hb, rfl⟩
        exact (hg_spec b hb).2.1
    have hidx_order : ∀ (j : Nat) (hj : j < results.length),
        (reorderFF (syncOrderedIds E results fresh)
          (syncChildFor E results fresh (results.get ⟨j, hj⟩))).order = (j : Int) := by
      intro j hj
      have hbj : results.get ⟨j, hj⟩ ∈ results := List.get_mem results j hj
      have hidx2 : findIdxA (fun i =>
          i == (syncChildFor E results fresh (results.get ⟨j, hj⟩)).id)
          (syncOrderedIds E results fresh)
          = findIdxA (fun x => x == results.get ⟨j, hj⟩) results := by
        rw [hOI]
        have := findIdxA_map_inj (fun b => (syncChildFor E results fresh b).id)
          results hg_inj (results.get ⟨j, hj⟩) hbj
        dsimp only at this
        exact this
      have hgetidx : findIdxA (fun x => x == results.get ⟨j, hj⟩) results = some j :=
        findIdxA_get_nodup results hres j hj
      exact reorderFF_order _ _ j (by rw [hidx2]; exact hgetidx)
    have hT_order : ∀ (j : Nat) (hj : j <
          ((results.map (syncChildFor E results fresh)).map
            (reorderFF (syncOrderedIds E results fresh))).length),
        (((results.map (syncChildFor E results fresh)).map
            (reorderFF (syncOrderedIds E results fresh))).get ⟨j, hj⟩).order
          = (j : Int) := by
      intro j hj
      have hjr : j < results.length := by simpa using hj
      have hg1 : ((results.map (syncChildFor E results fresh)).map
            (reorderFF (syncOrderedIds E results fresh))).get ⟨j, hj⟩
          = reorderFF (syncOrderedIds E results fresh)
            (syncChildFor E results fresh (results.get ⟨j, hjr⟩)) := by
        simp
      rw [hg1]
      exact hidx_order j hjr
    have hT_pairwise : ((results.map (syncChildFor E results fresh)).map
        (reorderFF (syncOrderedIds E results fresh))).Pairwise qLe := by
      rw [List.pairwise_iff_getElem]
      intro i j hi hj hij
      have h1 := hT_order i hi
      have h2 := hT_order j hj
      rw [List.get_eq_getElem] at h1 h2
      unfold qLe
      rw [h1, h2]
      omega
    have hT_orders_eq : (((results.map (syncChildFor E results fresh)).map
          (reorderFF (syncOrderedIds E results fresh))).map (fun c => c.order))
        = rangeInt results.length := by
      refine List.ext_getElem (by simp [rangeInt]) (fun j h1 h2 => ?_)
      have hjT : j < ((results.map (syncChildFor E results fresh)).map
          (reorderFF (syncOrderedIds E results fresh))).length := by simpa using h1
      have hoj := hT_order j hjT
      rw [List.get_eq_getElem] at hoj
      rw [List.getElem_map, hoj]
      simp [rangeInt]
    have hT_orders_nodup : ((((results.map (syncChildFor E results fresh)).map
          (reorderFF (syncOrderedIds E results fresh))).map
            (fun c => c.order))).Nodup := by
      rw [hT_orders_eq]
      unfold rangeInt
      exact List.Nodup.map (fun a b h => Int.ofNat_inj.mp h) (List.nodup_range _)
    have hT_perm : ((results.map (syncChildFor E results fresh)).map
        (reorderFF (syncOrderedIds E results fresh))).Perm
        (updateQueryBlockChildren E results fresh).children := by
      rw [hcharApplied]
      exact (hApermMap.map (reorderFF (syncOrderedIds E results fresh))).symm
    have hsorted2 : ((sortQ (updateQueryBlockChildren E results fresh).children)).Pairwise qLe :=
      List.sorted_insertionSort qLe _
    have hperm2 : ((results.map (syncChildFor E results fresh)).map
        (reorderFF (syncOrderedIds E results fresh))).Perm
        (sortQ (updateQueryBlockChildren E results fresh).children) :=
      hT_perm.trans (List.perm_insertionSort qLe _).symm
    have hTeq := sorted_nodup_orders_eq _
      (sortQ (updateQueryBlockChildren E results fresh).children) hperm2
      hT_pairwise hsorted2 hT_orders_nodup
    rw [← hTeq]
    rw [List.map_map, List.map_map]
    refine List.map_congr_left (fun b hb => ?_)
    show (reorderFF (syncOrderedIds E results fresh)
      (syncChildFor E results fresh b)).blockId = some b
    rw [reorderFF_blockId]
    exact (hg_spec b hb).2.2

/-- C9: query-block reconciliation is idempotent over an unchanged result
set — with well-formed inputs (duplicate-free child ids and `blockId`s,
every child carrying a truthy `blockId`, duplicate-free non-empty result
ids, enough fresh ids disjoint from existing ones), running the
reconciliation a second time with the same ordered result set deletes
nothing, creates nothing, and returns exactly the first run's children
(so every child keeps its item id); moreover the children sorted by
`order` list the `blockId`s in result order. -/
theorem updateQueryBlockChildren_idempotent
    (E : List QChild) (results fresh1 fresh2 : List String)
    (hidN : (E.map (fun c => c.id)).Nodup)
    (hbk : ∀ c ∈ E, truthyS c.blockId = true)
    (hbkN : (E.map (fun c => c.blockId)).Nodup)
    (hres : results.Nodup)
    (hresne : ∀ b ∈ results, b ≠ "")
    (hf1N : fresh1.Nodup)
    (hf1disj : ∀ i ∈ fresh1, ¬ i ∈ E.map (fun c => c.id))
    (hf1len : results.length ≤ fresh1.length)
    (hf2N : fresh2.Nodup)
    (hf2disj : ∀ i ∈ fresh2,
      ¬ i ∈ (updateQueryBlockChildren E results fresh1).children.map (fun c => c.id))
    (hf2len : results.length ≤ fresh2.length) :
    (updateQueryBlockChildren
        (updateQueryBlockChildren E results fresh1).children results fresh2).deleted = [] ∧
      (updateQueryBlockChildren
        (updateQueryBlockChildren E results fresh1).children results fresh2).created = [] ∧
      (updateQueryBlockChildren
        (updateQueryBlockChildren E results fresh1).children results fresh2).children
        = (updateQueryBlockChildren E results fresh1).children ∧
      (sortQ (updateQueryBlockChildren E results fresh1).children).map
        (fun c => c.blockId) = results.map some := by
  by_cases hne : results = []
  · subst hne
    have hch1 : (updateQueryBlockChildren E [] fresh1).children = [] := by
      unfold updateQueryBlockChildren
      rw [if_pos (show ([] : List String).isEmpty = true from rfl)]
      dsimp only
      refine List.filter_eq_nil_iff.mpr (fun c hc => ?_)
      rw [hbk c hc]
      simp
    rw [hch1]
    exact ⟨rfl, rfl, rfl, rfl⟩
  · obtain ⟨hchar1, hid1, hbk1, hbkN1, hcov1, hord1, hsorted1⟩ :=
      sync_chars E results fresh1 hidN hbk hbkN hres hresne hf1N hf1disj hf1len hne
    set C1 := (updateQueryBlockChildren E results fresh1).children with hC1
    have hbk2 : ∀ c ∈ C1, truthyS c.blockId = true := by
      intro c hc
      rcases hbk1 c hc with ⟨b, hb, hcb⟩
      rw [hcb]
      have hnb := hresne b hb
      simp [truthyS, hnb]
    have hnostale : ∀ c ∈ C1, isStale results c = false := by
      intro c hc
      rcases hbk1 c hc with ⟨b, hb, hcb⟩
      unfold isStale
      rw [hcb]
      have hcont : results.contains b = true := (contains_iff_mem results b).mpr hb
      simp [hcont, hb]
    have hkept2 : syncKept C1 results = C1 := by
      unfold syncKept
      refine List.filter_eq_self.mpr (fun c hc => ?_)
      rw [hnostale c hc]
      rfl
    have hneed2 : results.filter (fun b =>
        (C1.find? (fun c => c.blockId == some b)).isNone) = [] := by
      refine List.filter_eq_nil_iff.mpr (fun b hb => ?_)
      rcases hcov1 b hb with ⟨c, hc, hcb⟩
      have hsome : (C1.find? (fun c => c.blockId == some b)).isSome = true :=
        List.find?_isSome.mpr ⟨c, hc, by rw [hcb]; exact beq_self_eq_true _⟩
      cases hfc : C1.find? (fun c => c.blockId == some b) with
      | none => rw [hfc] at hsome; simp at hsome
      | some c0 => simp [hfc]
    obtain ⟨nw2, hcl2, hbw2, hiw2⟩ := createLoop_spec C1 results
      (syncKept C1 results) [] fresh2 (by rw [hneed2]; exact Nat.zero_le _)
    have hnw2 : nw2 = [] := by
      have hb2 := hbw2
      rw [hneed2] at hb2
      simpa using hb2
    have hA2 : syncA C1 results fresh2 = C1 := by
      unfold syncA
      rw [hcl2]
      dsimp only
      rw [hnw2, hkept2, List.append_nil]
    have hempty : results.isEmpty = false := by
      cases results with
      | nil => exact absurd rfl hne
      | cons b bs => rfl
    obtain ⟨hch2, hcr2, hdel2⟩ := updateQueryBlockChildren_eq C1 results fresh2 hempty
    have hdel2' : (updateQueryBlockChildren C1 results fresh2).deleted = [] := by
      rw [hdel2]
      have hf0 : C1.filter (isStale results) = [] :=
        List.filter_eq_nil_iff.mpr (fun c hc => by rw [hnostale c hc]; simp)
      rw [hf0]
      rfl
    have hcr2' : (updateQueryBlockChildren C1 results fresh2).created = [] := by
      rw [hcr2, hcl2]
      dsimp only
      rw [hnw2]
      rfl
    obtain ⟨hchar2, hid2, hbk2x, hbkN2, hcov2, hord2, hsorted2⟩ :=
      sync_chars C1 results fresh2 hid1 hbk2 hbkN1 hres hresne hf2N hf2disj hf2len hne
    rw [hA2] at hchar2
    have hmapid : C1.map (reorderFF (syncOrderedIds C1 results fresh2)) = C1 := by
      have hcg : C1.map (reorderFF (syncOrderedIds C1 results fresh2))
          = C1.map (fun c => c) := by
        refine List.map_congr_left (fun c hc => ?_)
        have hcm2 : reorderFF (syncOrderedIds C1 results fresh2) c
            ∈ (updateQueryBlockChildren C1 results fresh2).children := by
          rw [hchar2]
          exact List.mem_map.mpr ⟨c, hc, rfl⟩
        rcases hord2 _ hcm2 with ⟨b, j, hbb, hfj, hordFF⟩
        have hcb : c.blockId = some b := by
          rw [← reorderFF_blockId (syncOrderedIds C1 results fresh2) c]
          exact hbb
        rcases hord1 c hc with ⟨b', j', hcb', hfj', hcord⟩
        have hbe : b' = b := Option.some.inj (hcb'.symm.trans hcb)
        subst hbe
        have hje : j' = j := Option.some.inj (hfj'.symm.trans hfj)
        subst hje
        cases hf : findIdxA (fun i => i == c.id) (syncOrderedIds C1 results fresh2) with
        | none =>
          show reorderFF (syncOrderedIds C1 results fresh2) c = c
          unfold reorderFF
          rw [hf]
        | some k =>
          have haux : (reorderFF (syncOrderedIds C1 results fresh2) c).order
              = ((0 + k : Nat) : Int) := by
            unfold reorderFF
            rw [hf]
          have hv : c.order = ((0 + k : Nat) : Int) := by
            rw [hcord, ← hordFF]
            exact haux
          show reorderFF (syncOrderedIds C1 results fresh2) c = c
          unfold reorderFF
          rw [hf]
          exact qchild_update_self c _ hv
      rw [hcg]
      simp
    have hch2' : (updateQueryBlockChildren C1 results fresh2).children = C1 := by
      rw [hchar2]
      exact hmapid
    exact ⟨hdel2', hcr2', hch2', hsorted1⟩

/-- Concrete instantiation of the idempotence theorem: one existing
child matched by `blockId` b1, result set [b2, b1]; the second run
deletes and creates nothing and keeps the children pointwise. -/
theorem updateQueryBlockChildren_idempotent_witness :
    (updateQueryBlockChildren
        (updateQueryBlockChildren [⟨"x", some "b1", 0⟩] ["b2", "b1"]
          ["n1", "n2"]).children ["b2", "b1"] ["m1", "m2"]).deleted = [] ∧
      (updateQueryBlockChildren
        (updateQueryBlockChildren [⟨"x", some "b1", 0⟩] ["b2", "b1"]
          ["n1", "n2"]).children ["b2", "b1"] ["m1", "m2"]).created = [] ∧
      (updateQueryBlockChildren
        (updateQueryBlockChildren [⟨"x", some "b1", 0⟩] ["b2", "b1"]
          ["n1", "n2"]).children ["b2", "b1"] ["m1", "m2"]).children
        = (updateQueryBlockChildren [⟨"x", some "b1", 0⟩] ["b2", "b1"]
          ["n1", "n2"]).children ∧
      (sortQ (updateQueryBlockChildren [⟨"x", some "b1", 0⟩] ["b2", "b1"]
          ["n1", "n2"]).children).map (fun c => c.blockId)
        = ["b2", "b1"].map some :=
  updateQueryBlockChildren_idempotent [⟨"x", some "b1", 0⟩] ["b2", "b1"]
    ["n1", "n2"] ["m1", "m2"] (by decide) (by decide) (by decide) (by decide)
    (by decide) (by decide) (by decide) (by decide) (by decide) (by decide)
    (by decide)

end Orca
